import Mathlib

/-!
Verification of the LinkedIn automation tool's core state machine against its
natural-language specification.

The development shallowly embeds the Go source:
* `internal/storage` (SQLite-backed repository, file `part_002`) as pure
  operations over an in-memory `Storage.Database` value.  SQL statements are
  translated query-by-query: `INSERT` appends a row, `UPDATE ... WHERE`
  maps over rows, `SELECT ... WHERE ... ORDER BY` filters and sorts.
  Timestamps are modelled as `Int` seconds, so the SQLite comparison
  `datetime(t,'utc') >= datetime('now','-' || d || ' days')` becomes
  `now - d * 86400 ≤ t`.
* `pkg/utils` helpers (`ContainsString`, `IsLinkedInCheckpoint`, file
  `part_001`).
* the rate limiter (`internal/automation`, file `part_007`).
* the connection-request batch loop `SendConnectionRequests`
  (file `part_004`); the browser interaction inside a single
  `SendConnectionRequest` call is abstracted as the error value it returns,
  supplied by an oracle list, since only the returned error drives the
  statistics being verified.
* the template renderer (`internal/automation/templates.go`), including a
  faithful model of `strings.ReplaceAll`-based whitespace cleanup and of the
  subset of Go `text/template` syntax the templates use (literal text and
  `\x7b\x7b.Field\x7d\x7d` actions).

Go `for strings.Contains ... strings.ReplaceAll` loops are embedded as
fuel-indexed recursions with fuel `s.length`; each iteration strictly
shrinks the string, so this fuel always suffices (proved below), and the
fuelled form keeps every definition kernel-computable.
-/

namespace LinkedInTool

/-! ## Go string primitives (char-list level) -/

/-- Computable prefix test on char lists (`pat` starts `s`). -/
def isPrefixB : List Char → List Char → Bool
  | [], _ => true
  | _ :: _, [] => false
  | a :: as, b :: bs => a == b && isPrefixB as bs

/-- Computable contiguous-substring test: `pat` occurs in `s`. -/
def containsSeq (pat : List Char) : List Char → Bool
  | [] => isPrefixB pat []
  | c :: t => isPrefixB pat (c :: t) || containsSeq pat t

/-- Model of Go `strings.Contains s sub`: `sub` occurs contiguously in `s`. -/
def goContainsL (s sub : List Char) : Bool := containsSeq sub s

/-- Model of Go `strings.Contains` on `String`. -/
def goContains (s sub : String) : Bool := goContainsL s.toList sub.toList

/-- Model of Go `unicode.IsSpace` (the exact rune set Go tests:
ASCII whitespace, NEL, NBSP, and the Unicode `White_Space` runes). -/
def goIsSpace (c : Char) : Bool :=
  c = ' ' || c = '\t' || c = '\n' || c.val = 0x0B || c.val = 0x0C || c = '\r' ||
  c.val = 0x85 || c.val = 0xA0 || c.val = 0x1680 ||
  (0x2000 ≤ c.val && c.val ≤ 0x200A) ||
  c.val = 0x2028 || c.val = 0x2029 || c.val = 0x202F || c.val = 0x205F ||
  c.val = 0x3000

/-- Drop leading whitespace (the left half of Go `strings.TrimSpace`). -/
def ldrop (l : List Char) : List Char := l.dropWhile goIsSpace

/-- Drop trailing whitespace (the right half of Go `strings.TrimSpace`). -/
def rdrop (l : List Char) : List Char := (l.reverse.dropWhile goIsSpace).reverse

/-- Model of Go `strings.TrimSpace` on char lists. -/
def trimL (l : List Char) : List Char := rdrop (ldrop l)

/-- Model of Go `strings.TrimSpace`. -/
def goTrimSpace (s : String) : String := ⟨trimL s.toList⟩

/-! ## pkg/utils (source file `part_001`) -/

/-- Model of `utils.ContainsString`: membership of `str` in `slice` by exact
string equality. -/
def ContainsString (slice : List String) (str : String) : Bool :=
  slice.any (fun s => s == str)

/-- The five checkpoint patterns hard-coded in `utils.IsLinkedInCheckpoint`. -/
def checkpointPatterns : List String :=
  ["/checkpoint/", "/challenge/", "/uas/login-verification", "/uas/challenge", "/cap/"]

/-- Model of `utils.IsLinkedInCheckpoint`: for each pattern the Go code tests
`len(url) > 0 && ContainsString([]string\x7burl\x7d, pattern)`, i.e. exact
equality of `url` with the pattern. -/
def IsLinkedInCheckpoint (url : String) : Bool :=
  checkpointPatterns.any (fun pattern => url.length > 0 && ContainsString [url] pattern)

/-! ## Storage model (source file `part_002`)

The four SQLite tables become four lists of rows.  Column defaults from the
schema are applied on insert (`status TEXT DEFAULT 'pending'` is irrelevant
because `SaveConnectionRequest` always binds an explicit status;
`has_replied BOOLEAN DEFAULT 0` becomes `some false`).  `has_replied` is
nullable in the schema and the accepted-profiles query tests `IS NULL`
explicitly, so it is modelled as `Option Bool`. -/

namespace Storage

structure ProfileRow where
  id : String
  name : String
  title : String
  company : String
  location : String
  profileUrl : String
  visitedAt : Int
  createdAt : Int
deriving DecidableEq

structure ConnectionRequestRow where
  id : Nat
  profileId : String
  sentAt : Int
  noteUsed : String
  status : String
  hasReplied : Option Bool
  createdAt : Int
deriving DecidableEq

structure MessageRow where
  id : Nat
  connectionId : String
  templateName : String
  messageContent : String
  sentAt : Int
  createdAt : Int
deriving DecidableEq

structure RateLimitRow where
  date : String
  connectionCount : Nat
  messageCount : Nat
  searchCount : Nat
  lastUpdated : Int
deriving DecidableEq

structure Database where
  profiles : List ProfileRow
  connectionRequests : List ConnectionRequestRow
  messages : List MessageRow
  rateLimits : List RateLimitRow
deriving DecidableEq

/-- The empty store produced by `createTables` on a fresh file. -/
def emptyDatabase : Database := ⟨[], [], [], []⟩

/-- Next `INTEGER PRIMARY KEY AUTOINCREMENT` value for connection requests. -/
def nextRequestId (db : Database) : Nat :=
  (db.connectionRequests.map (fun r => r.id + 1)).foldr max 1

/-- Model of `Database.SaveConnectionRequest`: a plain
`INSERT INTO connection_requests (profile_id, sent_at, note_used, status, created_at)`.
The table has no uniqueness constraint on `profile_id` (only an index), the
bound values satisfy the `NOT NULL` constraints by construction, and
`go-sqlite3` leaves foreign keys disabled by default, so the statement always
succeeds: the model always returns `.ok`. -/
def SaveConnectionRequest (db : Database) (profileId : String) (sentAt : Int)
    (noteUsed status : String) (createdAt : Int) : Except String Database :=
  .ok { db with
          connectionRequests := db.connectionRequests ++
            [⟨nextRequestId db, profileId, sentAt, noteUsed, status, some false, createdAt⟩] }

/-- Model of `Database.UpdateConnectionStatus`:
`UPDATE connection_requests SET status = ? WHERE profile_id = ? AND status = 'pending'`.
The statement itself cannot fail for these bindings, so the model always
returns `.ok` with the updated store. -/
def UpdateConnectionStatus (db : Database) (profileId status : String) :
    Except String Database :=
  .ok { db with
          connectionRequests := db.connectionRequests.map (fun r =>
            if r.profileId = profileId ∧ r.status = "pending" then
              { r with status := status }
            else r) }

/-- Model of `Database.HasSentConnectionRequest`:
`SELECT COUNT(*) FROM connection_requests WHERE profile_id = ?` compared
against zero. -/
def HasSentConnectionRequest (db : Database) (profileId : String) : Bool :=
  db.connectionRequests.any (fun r => r.profileId == profileId)

/-- Model of `Database.GetPendingConnections`:
`SELECT ... FROM connection_requests WHERE status = 'pending' ORDER BY sent_at DESC`.
The `ORDER BY sent_at DESC` clause is modelled as a stable insertion sort
with relation `b.sentAt ≤ a.sentAt` (larger `sent_at`, i.e. newer, first). -/
def GetPendingConnections (db : Database) : List ConnectionRequestRow :=
  List.insertionSort (fun a b => b.sentAt ≤ a.sentAt)
    (db.connectionRequests.filter (fun r => r.status == "pending"))

/-- Model of `Database.SaveMessage`: a plain `INSERT INTO messages ...`;
always succeeds (no applicable constraints). -/
def SaveMessage (db : Database) (connectionId templateName messageContent : String)
    (sentAt createdAt : Int) : Except String Database :=
  .ok { db with
          messages := db.messages ++
            [⟨db.messages.length + 1, connectionId, templateName, messageContent,
              sentAt, createdAt⟩] }

/-- The cutoff instant used by the `datetime('now','-' || d || ' days')`
comparisons: `d` days (in seconds) before `now`. -/
def dayCutoff (now : Int) (daysBack : Int) : Int := now - daysBack * 86400

/-- The join-and-filter part of `Database.GetAcceptedConnectionProfiles`:
`FROM profiles p INNER JOIN connection_requests cr ON p.id = cr.profile_id
WHERE cr.status = 'accepted' AND (cr.has_replied IS NULL OR cr.has_replied = 0)
AND datetime(cr.sent_at,'utc') >= datetime('now','-' || ? || ' days')
AND p.id NOT IN (SELECT connection_id FROM messages WHERE
datetime(sent_at,'utc') >= datetime('now','-' || ? || ' days'))`. -/
def acceptedJoin (db : Database) (now daysBack : Int) :
    List (ProfileRow × ConnectionRequestRow) :=
  (db.profiles.flatMap (fun p => db.connectionRequests.map (fun cr => (p, cr)))).filter
    (fun pc =>
      pc.2.profileId == pc.1.id &&
      pc.2.status == "accepted" &&
      (pc.2.hasReplied == none || pc.2.hasReplied == some false) &&
      dayCutoff now daysBack ≤ pc.2.sentAt &&
      !(db.messages.any (fun m =>
          m.connectionId == pc.1.id && dayCutoff now daysBack ≤ m.sentAt)))

/-- `SELECT DISTINCT` over already-ordered rows: keep the first occurrence of
each (complete) profile row. -/
def distinctRows (seen : List ProfileRow) : List ProfileRow → List ProfileRow
  | [] => []
  | p :: ps =>
      if p ∈ seen then distinctRows seen ps else p :: distinctRows (p :: seen) ps

/-- Model of `Database.GetAcceptedConnectionProfiles`: join, filter,
`ORDER BY cr.sent_at DESC`, `DISTINCT` on the profile columns, `LIMIT ?`. -/
def GetAcceptedConnectionProfiles (db : Database) (now : Int) (limit : Nat)
    (daysBack : Int) : List ProfileRow :=
  (distinctRows []
    ((List.insertionSort (fun a b => b.2.sentAt ≤ a.2.sentAt)
        (acceptedJoin db now daysBack)).map Prod.fst)).take limit

/-- Model of `Database.UpdateConnectionReplyStatus`:
`UPDATE connection_requests SET has_replied = ? WHERE profile_id = ?`. -/
def UpdateConnectionReplyStatus (db : Database) (profileId : String)
    (hasReplied : Bool) : Except String Database :=
  .ok { db with
          connectionRequests := db.connectionRequests.map (fun r =>
            if r.profileId = profileId then { r with hasReplied := some hasReplied }
            else r) }

/-- Today's connection count as later read back by `GetTodayRateLimit`
(zero when no row exists for the date). -/
def connCount (db : Database) (today : String) : Nat :=
  match db.rateLimits.find? (fun r => r.date == today) with
  | some r => r.connectionCount
  | none => 0

/-- Today's message count (zero when no row exists for the date). -/
def msgCount (db : Database) (today : String) : Nat :=
  match db.rateLimits.find? (fun r => r.date == today) with
  | some r => r.messageCount
  | none => 0

/-- Today's search count (zero when no row exists for the date). -/
def searchCount (db : Database) (today : String) : Nat :=
  match db.rateLimits.find? (fun r => r.date == today) with
  | some r => r.searchCount
  | none => 0

/-- Model of `Database.GetTodayRateLimit`: read the row for `today`; when
absent, insert a fresh zero row and return it.  `nowTs` stands for the
`time.Now()` bound into `last_updated`. -/
def GetTodayRateLimit (db : Database) (today : String) (nowTs : Int) :
    RateLimitRow × Database :=
  match db.rateLimits.find? (fun r => r.date == today) with
  | some r => (r, db)
  | none =>
      (⟨today, 0, 0, 0, nowTs⟩,
       { db with rateLimits := db.rateLimits ++ [⟨today, 0, 0, 0, nowTs⟩] })

/-- Model of `Database.IncrementConnectionCount`:
`INSERT ... VALUES (?, 1, 0, 0, ?) ON CONFLICT(date) DO UPDATE SET
connection_count = connection_count + 1, last_updated = ?`. -/
def IncrementConnectionCount (db : Database) (today : String) (nowTs : Int) : Database :=
  if db.rateLimits.any (fun r => r.date == today) then
    { db with rateLimits := db.rateLimits.map (fun r =>
        if r.date == today then
          { r with connectionCount := r.connectionCount + 1, lastUpdated := nowTs }
        else r) }
  else
    { db with rateLimits := db.rateLimits ++ [⟨today, 1, 0, 0, nowTs⟩] }

/-- Model of `Database.IncrementMessageCount` (same upsert, message column). -/
def IncrementMessageCount (db : Database) (today : String) (nowTs : Int) : Database :=
  if db.rateLimits.any (fun r => r.date == today) then
    { db with rateLimits := db.rateLimits.map (fun r =>
        if r.date == today then
          { r with messageCount := r.messageCount + 1, lastUpdated := nowTs }
        else r) }
  else
    { db with rateLimits := db.rateLimits ++ [⟨today, 0, 1, 0, nowTs⟩] }

/-- Model of `Database.IncrementSearchCount` (same upsert, search column). -/
def IncrementSearchCount (db : Database) (today : String) (nowTs : Int) : Database :=
  if db.rateLimits.any (fun r => r.date == today) then
    { db with rateLimits := db.rateLimits.map (fun r =>
        if r.date == today then
          { r with searchCount := r.searchCount + 1, lastUpdated := nowTs }
        else r) }
  else
    { db with rateLimits := db.rateLimits ++ [⟨today, 0, 0, 1, nowTs⟩] }

end Storage

/-! ## Rate limiter (source file `part_007`)

`TaskType` is a closed enumeration here (in Go it is a string type whose only
values are the three constants; the `default:` branch of each `switch` is
unreachable for them).  Wall-clock times used for the reset instant are
modelled by `GoTime`, which records the arguments the Go code passes to
`time.Date`. -/

namespace Limiter

inductive TaskType where
  | connection
  | message
  | search
deriving DecidableEq

structure RateLimitConfig where
  maxConnectionsPerDay : Nat
  maxMessagesPerDay : Nat
  maxSearchesPerDay : Nat
deriving DecidableEq

/-- A local wall-clock instant (year, month, day, clock fields, location),
mirroring the components Go's `time.Time` exposes to this code. -/
structure GoTime where
  year : Int
  month : Nat
  day : Nat
  hour : Nat
  minute : Nat
  second : Nat
  loc : String
deriving DecidableEq

structure RateLimitError where
  taskType : TaskType
  current : Nat
  limit : Nat
  resetTime : GoTime
deriving DecidableEq

/-- Model of `RateLimiter.getNextMidnight`:
`time.Date(now.Year(), now.Month(), now.Day()+1, 0, 0, 0, 0, now.Location())`,
i.e. the next local midnight. -/
def getNextMidnight (now : GoTime) : GoTime :=
  ⟨now.year, now.month, now.day + 1, 0, 0, 0, now.loc⟩

/-- Model of `RateLimiter.CheckDailyLimit`.  `today` is
`time.Now().Format("2006-01-02")`, `now` the same instant as a `GoTime`, and
`nowTs` the same instant as a timestamp (used for the row
`GetTodayRateLimit` may insert).  Returns the check result together with the
possibly-extended store. -/
def CheckDailyLimit (cfg : RateLimitConfig) (db : Storage.Database)
    (today : String) (now : GoTime) (nowTs : Int) (taskType : TaskType) :
    Except RateLimitError Unit × Storage.Database :=
  let rd := Storage.GetTodayRateLimit db today nowTs
  match taskType with
  | .connection =>
      if rd.1.connectionCount ≥ cfg.maxConnectionsPerDay then
        (.error ⟨.connection, rd.1.connectionCount, cfg.maxConnectionsPerDay,
                 getNextMidnight now⟩, rd.2)
      else (.ok (), rd.2)
  | .message =>
      if rd.1.messageCount ≥ cfg.maxMessagesPerDay then
        (.error ⟨.message, rd.1.messageCount, cfg.maxMessagesPerDay,
                 getNextMidnight now⟩, rd.2)
      else (.ok (), rd.2)
  | .search =>
      if rd.1.searchCount ≥ cfg.maxSearchesPerDay then
        (.error ⟨.search, rd.1.searchCount, cfg.maxSearchesPerDay,
                 getNextMidnight now⟩, rd.2)
      else (.ok (), rd.2)

/-- Model of `RateLimiter.RecordAction`: the cooldown sleep is purely
temporal (it changes no persisted state) and is omitted; the persisted effect
is the increment of today's counter for the task type. -/
def RecordAction (db : Storage.Database) (today : String) (nowTs : Int)
    (taskType : TaskType) : Storage.Database :=
  match taskType with
  | .connection => Storage.IncrementConnectionCount db today nowTs
  | .message => Storage.IncrementMessageCount db today nowTs
  | .search => Storage.IncrementSearchCount db today nowTs

/-- Today's count for a task type (the value `CheckDailyLimit` compares
against the ceiling). -/
def taskCount (db : Storage.Database) (today : String) : TaskType → Nat
  | .connection => Storage.connCount db today
  | .message => Storage.msgCount db today
  | .search => Storage.searchCount db today

/-- The configured ceiling for a task type. -/
def taskLimit (cfg : RateLimitConfig) : TaskType → Nat
  | .connection => cfg.maxConnectionsPerDay
  | .message => cfg.maxMessagesPerDay
  | .search => cfg.maxSearchesPerDay

end Limiter

/-! ## Connection batch loop (source file `part_004`)

`SendConnectionRequests` iterates over requests, checks the daily limit,
invokes `SendConnectionRequest`, and sorts the outcome into statistics
buckets by substring-matching the returned error text.  A single
`SendConnectionRequest` call is a browser interaction; its externally visible
effects are (a) the error value it returns and (b), on the success path, the
`SaveConnectionRequest` row it inserts.  The model therefore takes, for each
request, the request data plus the outcome (`none` for success, `some e` for
the error text `e`) as an oracle. -/

namespace Batch

/-- The `automation.ConnectionRequest` argument fields the loop consumes. -/
structure ConnRequest where
  profileId : String
  name : String
  note : String
deriving DecidableEq

/-- The mutable counters of `automation.ConnectionStats` (start/end wall
times omitted: purely temporal). -/
structure ConnectionStats where
  totalAttempted : Nat
  successful : Nat
  failed : Nat
  alreadyConnected : Nat
  pending : Nat
  errors : List String
deriving DecidableEq

def ConnectionStats.init : ConnectionStats := ⟨0, 0, 0, 0, 0, []⟩

/-- Error strings produced by `SendConnectionRequest` (source lines 104, 111,
283): returned verbatim and substring-tested by the loop. -/
def errAlreadyConnected : String := "already connected"

def errConnectionPending : String := "connection pending"

def errConnectButtonNotFound : String :=
  "connect button not found - profile may be out of network"

/-- Model of the loop body of `automation.SendConnectionRequests`.  For each
request: increment `TotalAttempted`; on `CheckDailyLimit` failure append
"Rate limit reached" and break; otherwise dispatch on the outcome exactly as
the Go code does (`strings.Contains(err.Error(), "already connected")`, then
`"connection pending"`, else count a failure), and on success record the
request row (`SaveConnectionRequest` with status "pending" inside
`SendConnectionRequest`) and the rate-limiter action. -/
def sendLoop (cfg : Limiter.RateLimitConfig) (today : String)
    (now : Limiter.GoTime) (nowTs : Int) :
    List (ConnRequest × Option String) → Storage.Database → ConnectionStats →
    ConnectionStats × Storage.Database
  | [], db, stats => (stats, db)
  | (req, outcome) :: rest, db, stats =>
      let stats := { stats with totalAttempted := stats.totalAttempted + 1 }
      match Limiter.CheckDailyLimit cfg db today now nowTs .connection with
      | (.error _, db') =>
          ({ stats with errors := stats.errors ++ ["Rate limit reached"] }, db')
      | (.ok _, db') =>
          match outcome with
          | some e =>
              if goContains e errAlreadyConnected then
                sendLoop cfg today now nowTs rest db'
                  { stats with alreadyConnected := stats.alreadyConnected + 1 }
              else if goContains e errConnectionPending then
                sendLoop cfg today now nowTs rest db'
                  { stats with pending := stats.pending + 1 }
              else
                sendLoop cfg today now nowTs rest db'
                  { stats with failed := stats.failed + 1,
                               errors := stats.errors ++ [req.name ++ ": " ++ e] }
          | none =>
              let db'' :=
                match Storage.SaveConnectionRequest db' req.profileId nowTs
                        req.note "pending" nowTs with
                | .ok d => d
                | .error _ => db'
              sendLoop cfg today now nowTs rest
                (Limiter.RecordAction db'' today nowTs .connection)
                { stats with successful := stats.successful + 1 }

/-- Model of `automation.SendConnectionRequests`: run the loop from zeroed
statistics. -/
def SendConnectionRequests (cfg : Limiter.RateLimitConfig) (today : String)
    (now : Limiter.GoTime) (nowTs : Int)
    (requests : List (ConnRequest × Option String)) (db : Storage.Database) :
    ConnectionStats × Storage.Database :=
  sendLoop cfg today now nowTs requests db ConnectionStats.init

end Batch

/-! ## Template renderer (source file `internal/automation/templates.go`) -/

namespace Templates

/-- Prepend a char onto the first piece of a split (used by `splitChar`). -/
def consHead (c : Char) : List (List Char) → List (List Char)
  | [] => [[c]]
  | p :: ps => (c :: p) :: ps

/-- Model of Go `strings.Split(s, string(sep))` for a one-char separator. -/
def splitChar (sep : Char) : List Char → List (List Char)
  | [] => [[]]
  | c :: t => if c = sep then [] :: splitChar sep t else consHead c (splitChar sep t)

/-- Model of Go `strings.Join(pieces, string(sep))` for a one-char separator. -/
def joinChar (sep : Char) : List (List Char) → List Char
  | [] => []
  | [p] => p
  | p :: q :: ps => p ++ sep :: joinChar sep (q :: ps)

/-- One pass of Go `strings.ReplaceAll(text, "  ", " ")`: replace
non-overlapping double spaces left to right. -/
def replaceSp : List Char → List Char
  | [] => []
  | [c] => [c]
  | c :: d :: rest =>
      if c = ' ' ∧ d = ' ' then ' ' :: replaceSp rest
      else c :: replaceSp (d :: rest)

/-- One pass of Go `strings.ReplaceAll(text, "\n\n\n", "\n\n")`. -/
def replaceNl3 : List Char → List Char
  | [] => []
  | [c] => [c]
  | [c, d] => [c, d]
  | c :: d :: e :: rest =>
      if c = '\n' ∧ d = '\n' ∧ e = '\n' then '\n' :: '\n' :: replaceNl3 rest
      else c :: replaceNl3 (d :: e :: rest)

/-- Fuelled form of `for strings.Contains(text, "  ") \x7b text =
strings.ReplaceAll(text, "  ", " ") \x7d`. -/
def collapseSpacesFuel : Nat → List Char → List Char
  | 0, s => s
  | n + 1, s =>
      if goContainsL s [' ', ' '] then collapseSpacesFuel n (replaceSp s) else s

/-- The space-collapsing loop; fuel `s.length` always reaches the fixed
point because each iteration strictly shrinks the list (proved below). -/
def collapseSpaces (s : List Char) : List Char := collapseSpacesFuel s.length s

/-- Fuelled form of `for strings.Contains(text, "\n\n\n") \x7b text =
strings.ReplaceAll(text, "\n\n\n", "\n\n") \x7d`. -/
def collapseNewlinesFuel : Nat → List Char → List Char
  | 0, s => s
  | n + 1, s =>
      if goContainsL s ['\n', '\n', '\n'] then collapseNewlinesFuel n (replaceNl3 s) else s

/-- The newline-collapsing loop (fuel `s.length`, same argument). -/
def collapseNewlines (s : List Char) : List Char := collapseNewlinesFuel s.length s

/-- Model of `cleanupWhitespace` (templates.go lines 311-330): collapse
double spaces to single, collapse triple newlines to double, trim each line,
then trim the whole text. -/
def cleanupWhitespaceL (s : List Char) : List Char :=
  let s1 := collapseSpaces s
  let s2 := collapseNewlines s1
  let s3 := joinChar '\n' ((splitChar '\n' s2).map trimL)
  trimL s3

/-- String-level `cleanupWhitespace`. -/
def cleanupWhitespace (s : String) : String := ⟨cleanupWhitespaceL s.toList⟩

inductive TemplateType where
  | connectionRequest
  | followUp
  | introduction
  | networking
deriving DecidableEq

/-- The variable record `automation.TemplateVariables`. -/
structure TemplateVariables where
  firstName : String
  lastName : String
  fullName : String
  title : String
  company : String
  industry : String
  yourName : String
  yourTitle : String
  yourCompany : String
  customReason : String
  date : String
deriving DecidableEq

/-- A `TemplateVariables` value with every field empty. -/
def TemplateVariables.empty : TemplateVariables :=
  ⟨"", "", "", "", "", "", "", "", "", "", ""⟩

/-- The template record `automation.MessageTemplate` (description field
omitted: never read by the renderer). -/
structure MessageTemplate where
  id : String
  type : TemplateType
  name : String
  subject : String
  body : String
  maxLength : Nat
deriving DecidableEq

/-- LinkedIn's limit for connection request notes (templates.go line 51). -/
def ConnectionNoteMaxLength : Nat := 300

/-- LinkedIn's limit for direct messages (templates.go line 52). -/
def MessageMaxLength : Nat := 8000

/-- Field lookup for `text/template` data access `.Name` on a
`TemplateVariables` value. -/
def lookupField (v : TemplateVariables) : String → Option String
  | "FirstName" => some v.firstName
  | "LastName" => some v.lastName
  | "FullName" => some v.fullName
  | "Title" => some v.title
  | "Company" => some v.company
  | "Industry" => some v.industry
  | "YourName" => some v.yourName
  | "YourTitle" => some v.yourTitle
  | "YourCompany" => some v.yourCompany
  | "CustomReason" => some v.customReason
  | "Date" => some v.date
  | _ => none

/-- Scan to the first closing `\x7d\x7d`; returns the action content and the
remainder after the delimiter, or `none` if the action is never closed. -/
def splitAtClose : List Char → Option (List Char × List Char)
  | [] => none
  | [_] => none
  | '}' :: '}' :: rest => some ([], rest)
  | c :: rest => (splitAtClose rest).map (fun pr => (c :: pr.1, pr.2))

/-- Whitespace the `text/template` lexer skips around an action body. -/
def trimActionSpace (l : List Char) : List Char :=
  ((l.dropWhile (fun c => c = ' ' || c = '\t')).reverse.dropWhile
    (fun c => c = ' ' || c = '\t')).reverse

/-- Evaluate one `text/template` action for the subset of the language the
repository's templates use: a `.Field` access substitutes the field value;
a bare identifier is resolved as a function name and fails exactly as Go's
parser does (`function "X" not defined`); an unknown field fails as Go's
executor does. -/
def execAction (v : TemplateVariables) (content : List Char) : Except String (List Char) :=
  match trimActionSpace content with
  | '.' :: fieldChars =>
      match lookupField v ⟨fieldChars⟩ with
      | some val => .ok val.toList
      | none => .error ("can\x27t evaluate field " ++ (⟨fieldChars⟩ : String))
  | other => .error ("function \"" ++ (⟨other⟩ : String) ++ "\" not defined")

/-- Combined parse-and-execute walk over a template body: literal text is
copied, `\x7b\x7b...\x7d\x7d` actions are evaluated by `execAction`.  The
fuel argument only bounds the recursion; `length + 1` fuel always suffices
since every step consumes at least one input char. -/
def renderChars (v : TemplateVariables) : Nat → List Char → Except String (List Char)
  | 0, _ => .error "render fuel exhausted"
  | _ + 1, [] => .ok []
  | n + 1, '{' :: '{' :: rest =>
      match splitAtClose rest with
      | none => .error "unclosed action"
      | some (content, after) =>
          match execAction v content with
          | .error e => .error e
          | .ok val =>
              match renderChars v n after with
              | .error e => .error e
              | .ok tail => .ok (val ++ tail)
  | n + 1, c :: rest =>
      match renderChars v n rest with
      | .error e => .error e
      | .ok tail => .ok (c :: tail)

/-- Model of `automation.RenderTemplate`: apply the variable defaults in
source order (derive `FullName`, default `Date` to the formatted current date
`nowDate`, derive `FirstName`/`LastName` by splitting `FullName` on spaces),
parse-and-execute the body, clean up whitespace, then enforce the length and
non-emptiness checks.  Parse and execute errors are fused into one error
path (the claims only observe success versus failure). -/
def RenderTemplate (tmpl : MessageTemplate) (vars : TemplateVariables)
    (nowDate : String) : Except String String :=
  let v1 :=
    if vars.fullName = "" ∧ vars.firstName ≠ "" then
      if vars.lastName ≠ "" then
        { vars with fullName := vars.firstName ++ " " ++ vars.lastName }
      else
        { vars with fullName := vars.firstName }
    else vars
  let v2 := if v1.date = "" then { v1 with date := nowDate } else v1
  let v3 :=
    if v2.firstName = "" ∧ v2.fullName ≠ "" then
      match splitChar ' ' v2.fullName.toList with
      | [] => v2
      | p :: rest =>
          if rest ≠ [] then
            { v2 with firstName := ⟨p⟩, lastName := ⟨joinChar ' ' rest⟩ }
          else
            { v2 with firstName := ⟨p⟩ }
    else v2
  match renderChars v3 (tmpl.body.toList.length + 1) tmpl.body.toList with
  | .error e => .error ("failed to parse template: " ++ e)
  | .ok rendered =>
      let result := cleanupWhitespaceL rendered
      if tmpl.maxLength < result.length then
        .error ("rendered message exceeds maximum length (" ++
                toString result.length ++ " > " ++ toString tmpl.maxLength ++ ")")
      else if (⟨trimL result⟩ : String) = "" then
        .error "rendered message is empty - check that template variables are provided"
      else .ok ⟨result⟩

/-- Proof-side invariant of cleaned text: no two adjacent space chars. -/
def NoDoubleSpace (s : List Char) : Prop :=
  List.Chain' (fun a b => ¬(a = ' ' ∧ b = ' ')) s

/-- Proof-side invariant of cleaned text: every line is already trimmed. -/
def LinesTrimmed (s : List Char) : Prop :=
  ∀ p ∈ splitChar '\n' s, trimL p = p

end Templates

/-! ## Derived notions used by the statements -/

/-- Iterate a function `n` times (used to state "after N recordAction
calls"). -/
def applyN {α : Type} (f : α → α) : Nat → α → α
  | 0, a => a
  | n + 1, a => applyN f n (f a)

namespace Storage

/-- Number of active (non-withdrawn) connection-request rows for a contact;
the quantity the spec's uniqueness invariant bounds by one. -/
def activeRequestCount (db : Database) (profileId : String) : Nat :=
  (db.connectionRequests.filter
    (fun r => r.profileId == profileId && !(r.status == "withdrawn"))).length

end Storage

namespace Batch

/-- Outcome classification used to state the failure tally: an error that
contains neither "already connected" nor "connection pending" is counted as
a failure by the loop. -/
def countsAsFailed : Option String → Bool
  | none => false
  | some e => !(goContains e errAlreadyConnected) && !(goContains e errConnectionPending)

/-- Outcome classification: errors containing "already connected". -/
def countsAsAlreadyConnected : Option String → Bool
  | none => false
  | some e => goContains e errAlreadyConnected

/-- Outcome classification: errors containing "connection pending" (and not
"already connected", which the loop tests first). -/
def countsAsPending : Option String → Bool
  | none => false
  | some e => !(goContains e errAlreadyConnected) && goContains e errConnectionPending

/-- Outcome classification: successes. -/
def countsAsSuccess : Option String → Bool
  | none => true
  | some _ => false

end Batch

/-! ## Concrete instances used by counterexamples and witnesses -/

namespace Fixtures

open Storage Limiter Batch Templates

/-- Store after one `SaveConnectionRequest` for contact `c1`. -/
def dbC1a : Database :=
  ⟨[], [⟨1, "c1", 100, "hi", "pending", some false, 100⟩], [], []⟩

/-- Store after a second `SaveConnectionRequest` for the same contact. -/
def dbC1b : Database :=
  ⟨[], [⟨1, "c1", 100, "hi", "pending", some false, 100⟩,
        ⟨2, "c1", 200, "hi", "pending", some false, 200⟩], [], []⟩

/-- A one-row store whose single request is already accepted. -/
def dbC5 : Database :=
  ⟨[], [⟨1, "c1", 100, "", "accepted", some false, 100⟩], [], []⟩

/-- Rate-limit config with a connection ceiling of 2 (witness for the quota
claim). -/
def cfgC2 : RateLimitConfig := ⟨2, 50, 100⟩

/-- A fixed wall-clock instant. -/
def nowC2 : GoTime := ⟨2026, 1, 15, 12, 30, 0, "Local"⟩

/-- A profile row shared by the accepted-connections fixtures. -/
def pAcc : ProfileRow := ⟨"p1", "Ada L", "Engineer", "Acme", "NYC", "u1", 0, 0⟩

/-- An accepted, replied request row for `p1`. -/
def rRepliedTrue : ConnectionRequestRow := ⟨1, "p1", 1000, "", "accepted", some true, 0⟩

/-- An accepted, unreplied request row for `p1`. -/
def rRepliedFalse : ConnectionRequestRow := ⟨2, "p1", 900, "", "accepted", some false, 0⟩

/-- Store with two accepted rows for one contact, one of them replied:
exercises the reply-flag leak of `GetAcceptedConnectionProfiles`. -/
def dbC3 : Database := ⟨[pAcc], [rRepliedTrue, rRepliedFalse], [], []⟩

/-- Store with a single accepted, unreplied request (witness fixture). -/
def dbC3w : Database := ⟨[pAcc], [rRepliedFalse], [], []⟩

/-- A message sent 35 days before the fixture's `now` (= 1000). -/
def mOld : MessageRow := ⟨1, "p1", "tpl", "hello", 1000 - 35 * 86400, 0⟩

/-- Store where the only message to `p1` is older than the 30-day window. -/
def dbC4 : Database := ⟨[pAcc], [rRepliedFalse], [mOld], []⟩

/-- Two pending requests with distinct send times (ordering fixture). -/
def rOld : ConnectionRequestRow := ⟨1, "a", 100, "", "pending", some false, 100⟩

/-- The newer of the two pending requests. -/
def rNew : ConnectionRequestRow := ⟨2, "b", 200, "", "pending", some false, 200⟩

/-- Store holding the two pending requests in insertion order. -/
def dbC8 : Database := ⟨[], [rOld, rNew], [], []⟩

/-- Config with a high ceiling so the batch-loop fixtures never hit the
quota. -/
def cfgC7 : RateLimitConfig := ⟨10, 50, 100⟩

/-- A request fed to the batch-loop fixtures. -/
def reqC7 : ConnRequest := ⟨"x1", "X", ""⟩

/-- Batch-loop oracle exercising all four outcome classes. -/
def outcomesC7w : List (ConnRequest × Option String) :=
  [(reqC7, some errAlreadyConnected),
   (reqC7, some errConnectionPending),
   (reqC7, none),
   (reqC7, some errConnectButtonNotFound)]

/-- The template variables of the rendering claim. -/
def varsAda : TemplateVariables :=
  { TemplateVariables.empty with
      firstName := "Ada", title := "Engineer", company := "Acme" }

/-- The template body exactly as the claim states it (placeholders without
the leading dot). -/
def bodyClaimC10 : String :=
  "Hi \x7b\x7bFirstName\x7d\x7d, I noticed you\x27re a \x7b\x7bTitle\x7d\x7d at \x7b\x7bCompany\x7d\x7d."

/-- The same body in the placeholder syntax the code's templates actually
use (`\x7b\x7b.Field\x7d\x7d`, as in every template of templates.go). -/
def bodyDottedC10 : String :=
  "Hi \x7b\x7b.FirstName\x7d\x7d, I noticed you\x27re a \x7b\x7b.Title\x7d\x7d at \x7b\x7b.Company\x7d\x7d."

/-- Connection-note template carrying the claim's literal body. -/
def tmplClaimC10 : MessageTemplate :=
  ⟨"c10", .connectionRequest, "Role-Specific", "", bodyClaimC10, ConnectionNoteMaxLength⟩

/-- Connection-note template carrying the dotted body. -/
def tmplDottedC10 : MessageTemplate :=
  ⟨"c10d", .connectionRequest, "Role-Specific", "", bodyDottedC10, ConnectionNoteMaxLength⟩

/-- The rendering the claim expects. -/
def renderedC10 : String := "Hi Ada, I noticed you\x27re a Engineer at Acme."

end Fixtures

/-! ## General helper lemmas -/

theorem map_eq_self_of {α : Type} {f : α → α} {l : List α}
    (h : ∀ a ∈ l, f a = a) : l.map f = l := by
  induction l with
  | nil => rfl
  | cons x xs ih =>
      simp only [List.map_cons, h x (List.mem_cons_self x xs),
        ih (fun a ha => h a (List.mem_cons_of_mem x ha))]

/-! ## Claim C6: checkpoint detection is exact string equality -/

/-- C6: `IsLinkedInCheckpoint url` is true exactly when `url` equals one of
the five pattern strings; in particular a url that merely contains a pattern
as a proper substring (and is not itself a pattern) yields false, because
`ContainsString` tests slice membership by exact equality. -/
theorem C6_checkpoint_exact_equality :
    (∀ url : String, IsLinkedInCheckpoint url = true ↔ url ∈ checkpointPatterns) ∧
    (∀ url pat : String, pat ∈ checkpointPatterns → pat.toList <:+: url.toList →
      url ∉ checkpointPatterns → IsLinkedInCheckpoint url = false) := by
  have hmain : ∀ url : String, IsLinkedInCheckpoint url = true ↔ url ∈ checkpointPatterns := by
    intro url
    constructor
    · intro h
      simp only [IsLinkedInCheckpoint, List.any_eq_true] at h
      obtain ⟨p, hp, hcond⟩ := h
      simp only [ContainsString, List.any_cons, List.any_nil, Bool.or_false,
        Bool.and_eq_true, beq_iff_eq] at hcond
      exact hcond.2 ▸ hp
    · intro h
      fin_cases h <;> decide
  refine ⟨hmain, ?_⟩
  intro url pat _ _ hnot
  cases h : IsLinkedInCheckpoint url with
  | false => rfl
  | true => exact absurd ((hmain url).mp h) hnot

/-- C6 witness: the full checkpoint URL containing "/checkpoint/" as a
proper substring is not detected, while the bare pattern is. -/
theorem C6_checkpoint_witness :
    IsLinkedInCheckpoint "https://www.linkedin.com/checkpoint/challenge" = false ∧
    IsLinkedInCheckpoint "/checkpoint/" = true :=
  ⟨C6_checkpoint_exact_equality.2 "https://www.linkedin.com/checkpoint/challenge"
      "/checkpoint/" (by decide) (by decide) (by decide),
   (C6_checkpoint_exact_equality.1 "/checkpoint/").mpr (by decide)⟩

/-! ## Claim C5: status transition only from pending, idempotent no-op -/

/-- C5: `UpdateConnectionStatus` updates only rows whose current status is
pending for the given contact; with no pending row for that contact it
returns success leaving the store unchanged (a no-op, not an error);
non-pending rows are never modified, so a terminal status never regresses;
and re-running the same transition is a no-op. -/
theorem C5_updateConnectionStatus_pending_only :
    ∀ (db : Storage.Database) (profileId status : String),
      ((∀ r ∈ db.connectionRequests, r.profileId = profileId → r.status ≠ "pending") →
        Storage.UpdateConnectionStatus db profileId status = .ok db) ∧
      (∀ db', Storage.UpdateConnectionStatus db profileId status = .ok db' →
        (∀ (i : Nat) (r : Storage.ConnectionRequestRow),
            db.connectionRequests[i]? = some r → r.status ≠ "pending" →
            db'.connectionRequests[i]? = some r) ∧
        Storage.UpdateConnectionStatus db' profileId status = .ok db') := by
  intro db pid st
  have hff : ∀ r : Storage.ConnectionRequestRow,
      (fun r : Storage.ConnectionRequestRow =>
        if r.profileId = pid ∧ r.status = "pending" then { r with status := st } else r)
      ((fun r : Storage.ConnectionRequestRow =>
        if r.profileId = pid ∧ r.status = "pending" then { r with status := st } else r) r) =
      (fun r : Storage.ConnectionRequestRow =>
        if r.profileId = pid ∧ r.status = "pending" then { r with status := st } else r) r := by
    intro r
    by_cases hc : r.profileId = pid ∧ r.status = "pending"
    · simp only [if_pos hc]
      by_cases hst : st = "pending"
      · simp [hst]
      · simp [hst]
    · simp only [if_neg hc]
  constructor
  · intro h
    have hm : db.connectionRequests.map (fun r =>
        if r.profileId = pid ∧ r.status = "pending" then { r with status := st } else r) =
        db.connectionRequests :=
      map_eq_self_of (fun r hr => if_neg (fun hc => h r hr hc.1 hc.2))
    show Except.ok _ = Except.ok db
    rw [hm]
  · intro db' heq
    have hdb' := Except.ok.inj heq
    subst hdb'
    constructor
    · intro i r hir hstat
      show (db.connectionRequests.map _)[i]? = some r
      rw [List.getElem?_map, hir]
      show some (if r.profileId = pid ∧ r.status = "pending" then { r with status := st } else r) =
        some r
      rw [if_neg (fun hc => hstat hc.2)]
    · show Except.ok _ = Except.ok _
      have hrows : ((db.connectionRequests.map (fun r =>
          if r.profileId = pid ∧ r.status = "pending" then { r with status := st } else r)).map
            (fun r => if r.profileId = pid ∧ r.status = "pending" then { r with status := st } else r)) =
          db.connectionRequests.map (fun r =>
            if r.profileId = pid ∧ r.status = "pending" then { r with status := st } else r) := by
        rw [List.map_map]
        exact List.map_congr_left (fun a _ => hff a)
      exact congrArg Except.ok (by
        show ({ db with connectionRequests := _ } : Storage.Database) = _
        rw [hrows])

/-- C5 witness: on a store whose only request is already accepted, the
transition call is a success no-op. -/
theorem C5_updateConnectionStatus_witness :
    Storage.UpdateConnectionStatus Fixtures.dbC5 "c1" "accepted" = .ok Fixtures.dbC5 :=
  (C5_updateConnectionStatus_pending_only Fixtures.dbC5 "c1" "accepted").1 (by decide)

/-! ## Claim C1: duplicate connection requests -/

/-- C1 counterexample: a second `SaveConnectionRequest` for the same contact
does not fail with any duplicate error — it succeeds and leaves two active
(non-withdrawn) pending rows for the contact. -/
theorem C1_cex_second_insert_succeeds :
    Storage.SaveConnectionRequest Storage.emptyDatabase "c1" 100 "hi" "pending" 100 =
      .ok Fixtures.dbC1a ∧
    Storage.SaveConnectionRequest Fixtures.dbC1a "c1" 200 "hi" "pending" 200 =
      .ok Fixtures.dbC1b ∧
    Storage.activeRequestCount Fixtures.dbC1b "c1" = 2 :=
  ⟨rfl, rfl, by decide⟩

/-- C1 (amended): `SaveConnectionRequest` is an unconditional insert that
never reports a duplicate: both of two successive calls for the same contact
succeed, the row is appended with the caller-supplied status (`pending` at
the call site), and the number of active rows for the contact grows by two —
duplicate suppression is left to callers via `HasSentConnectionRequest`. -/
theorem C1_saveConnectionRequest_always_inserts :
    ∀ (db : Storage.Database) (pid note : String) (s1 c1 s2 c2 : Int),
      ∃ db1 db2,
        Storage.SaveConnectionRequest db pid s1 note "pending" c1 = .ok db1 ∧
        Storage.SaveConnectionRequest db1 pid s2 note "pending" c2 = .ok db2 ∧
        db1.connectionRequests = db.connectionRequests ++
          [⟨Storage.nextRequestId db, pid, s1, note, "pending", some false, c1⟩] ∧
        Storage.activeRequestCount db2 pid = Storage.activeRequestCount db pid + 2 := by
  intro db pid note s1 c1 s2 c2
  refine ⟨_, _, rfl, rfl, rfl, ?_⟩
  simp [Storage.activeRequestCount, Storage.SaveConnectionRequest, List.filter_append]

/-! ## Claim C8: order of pending connection requests -/

/-- C8 counterexample: with two pending rows sent at times 100 and 200, the
row sent later comes first — the result is not in ascending send-time
order. -/
theorem C8_cex_descending_order :
    Storage.GetPendingConnections Fixtures.dbC8 = [Fixtures.rNew, Fixtures.rOld] ∧
    Fixtures.rOld.sentAt < Fixtures.rNew.sentAt ∧
    ¬ List.Pairwise
        (fun a b : Storage.ConnectionRequestRow => a.sentAt ≤ b.sentAt)
        (Storage.GetPendingConnections Fixtures.dbC8) := by decide

/-- C8 (amended): `GetPendingConnections` returns exactly the rows whose
status is pending, ordered by sent time descending (newest first, per the
query's `ORDER BY sent_at DESC`). -/
theorem C8_pending_rows_newest_first :
    ∀ db : Storage.Database,
      (Storage.GetPendingConnections db).Perm
        (db.connectionRequests.filter (fun r => r.status == "pending")) ∧
      List.Pairwise (fun a b : Storage.ConnectionRequestRow => b.sentAt ≤ a.sentAt)
        (Storage.GetPendingConnections db) ∧
      ∀ r, r ∈ Storage.GetPendingConnections db ↔
        r ∈ db.connectionRequests ∧ r.status = "pending" := by
  intro db
  haveI htot : IsTotal Storage.ConnectionRequestRow
      (fun a b => b.sentAt ≤ a.sentAt) := ⟨fun a b => le_total b.sentAt a.sentAt⟩
  haveI htr : IsTrans Storage.ConnectionRequestRow
      (fun a b => b.sentAt ≤ a.sentAt) := ⟨fun _ _ _ hab hbc => le_trans hbc hab⟩
  have hperm : (Storage.GetPendingConnections db).Perm
      (db.connectionRequests.filter (fun r => r.status == "pending")) :=
    List.perm_insertionSort _ _
  refine ⟨hperm, List.sorted_insertionSort _ _, ?_⟩
  intro r
  rw [hperm.mem_iff, List.mem_filter]
  simp only [beq_iff_eq]

/-! ## Rate-limiter lemmas -/

theorem find?_pred {α : Type} {p : α → Bool} {l : List α} {a : α}
    (h : l.find? p = some a) : p a = true := by
  induction l with
  | nil => simp [List.find?] at h
  | cons x xs ih =>
      rw [List.find?_cons] at h
      by_cases hx : p x
      · simp [hx] at h
        subst h
        exact hx
      · simp [hx] at h
        exact ih h

theorem find?_append_none {α : Type} {p : α → Bool} {l₁ l₂ : List α}
    (h : l₁.find? p = none) : (l₁ ++ l₂).find? p = l₂.find? p := by
  induction l₁ with
  | nil => rfl
  | cons x xs ih =>
      rw [List.find?_cons] at h
      rw [List.cons_append, List.find?_cons]
      cases hx : p x with
      | false =>
          rw [hx] at h
          simp only [Bool.false_eq_true, if_false] at h ⊢
          exact ih h
      | true => simp [hx] at h

theorem find?_map_date {rows : List Storage.RateLimitRow} {today : String}
    {f : Storage.RateLimitRow → Storage.RateLimitRow}
    (hdate : ∀ r, (f r).date = r.date) :
    (rows.map f).find? (fun r => r.date == today) =
      (rows.find? (fun r => r.date == today)).map f := by
  induction rows with
  | nil => rfl
  | cons r rs ih =>
      rw [List.map_cons, List.find?_cons, List.find?_cons]
      cases hr : (r.date == today) with
      | true =>
          have : ((f r).date == today) = true := by rw [hdate r]; exact hr
          simp [this]
      | false =>
          have : ((f r).date == today) = false := by rw [hdate r]; exact hr
          simp [this, hr, ih]

theorem connCount_increment (db : Storage.Database) (today : String) (ts : Int) :
    Storage.connCount (Storage.IncrementConnectionCount db today ts) today =
      Storage.connCount db today + 1 := by
  unfold Storage.IncrementConnectionCount Storage.connCount
  by_cases hany : db.rateLimits.any (fun r => r.date == today)
  · simp only [if_pos hany]
    obtain ⟨r0, hr0, hp0⟩ := List.any_eq_true.mp hany
    have hsome : (db.rateLimits.find? (fun r => r.date == today)).isSome :=
      List.find?_isSome.mpr ⟨r0, hr0, hp0⟩
    obtain ⟨r, hr⟩ := Option.isSome_iff_exists.mp hsome
    have hpr := find?_pred hr
    rw [find?_map_date (fun r => by by_cases h : (r.date == today) <;> simp [h]), hr]
    have heq : r.date = today := by simpa using hpr
    simp [heq]
  · simp only [if_neg hany]
    have hnone : db.rateLimits.find? (fun r => r.date == today) = none :=
      List.find?_eq_none.mpr (fun x hx hpx => hany (List.any_eq_true.mpr ⟨x, hx, hpx⟩))
    rw [find?_append_none hnone, hnone]
    simp [List.find?_cons]

theorem msgCount_increment (db : Storage.Database) (today : String) (ts : Int) :
    Storage.msgCount (Storage.IncrementMessageCount db today ts) today =
      Storage.msgCount db today + 1 := by
  unfold Storage.IncrementMessageCount Storage.msgCount
  by_cases hany : db.rateLimits.any (fun r => r.date == today)
  · simp only [if_pos hany]
    obtain ⟨r0, hr0, hp0⟩ := List.any_eq_true.mp hany
    have hsome : (db.rateLimits.find? (fun r => r.date == today)).isSome :=
      List.find?_isSome.mpr ⟨r0, hr0, hp0⟩
    obtain ⟨r, hr⟩ := Option.isSome_iff_exists.mp hsome
    have hpr := find?_pred hr
    rw [find?_map_date (fun r => by by_cases h : (r.date == today) <;> simp [h]), hr]
    have heq : r.date = today := by simpa using hpr
    simp [heq]
  · simp only [if_neg hany]
    have hnone : db.rateLimits.find? (fun r => r.date == today) = none :=
      List.find?_eq_none.mpr (fun x hx hpx => hany (List.any_eq_true.mpr ⟨x, hx, hpx⟩))
    rw [find?_append_none hnone, hnone]
    simp [List.find?_cons]

theorem searchCount_increment (db : Storage.Database) (today : String) (ts : Int) :
    Storage.searchCount (Storage.IncrementSearchCount db today ts) today =
      Storage.searchCount db today + 1 := by
  unfold Storage.IncrementSearchCount Storage.searchCount
  by_cases hany : db.rateLimits.any (fun r => r.date == today)
  · simp only [if_pos hany]
    obtain ⟨r0, hr0, hp0⟩ := List.any_eq_true.mp hany
    have hsome : (db.rateLimits.find? (fun r => r.date == today)).isSome :=
      List.find?_isSome.mpr ⟨r0, hr0, hp0⟩
    obtain ⟨r, hr⟩ := Option.isSome_iff_exists.mp hsome
    have hpr := find?_pred hr
    rw [find?_map_date (fun r => by by_cases h : (r.date == today) <;> simp [h]), hr]
    have heq : r.date = today := by simpa using hpr
    simp [heq]
  · simp only [if_neg hany]
    have hnone : db.rateLimits.find? (fun r => r.date == today) = none :=
      List.find?_eq_none.mpr (fun x hx hpx => hany (List.any_eq_true.mpr ⟨x, hx, hpx⟩))
    rw [find?_append_none hnone, hnone]
    simp [List.find?_cons]

theorem taskCount_recordAction (db : Storage.Database) (today : String) (ts : Int)
    (k : Limiter.TaskType) :
    Limiter.taskCount (Limiter.RecordAction db today ts k) today k =
      Limiter.taskCount db today k + 1 := by
  cases k with
  | connection => exact connCount_increment db today ts
  | message => exact msgCount_increment db today ts
  | search => exact searchCount_increment db today ts

theorem connCount_recordAction_conn (db : Storage.Database) (today : String) (ts : Int) :
    Storage.connCount (Limiter.RecordAction db today ts .connection) today =
      Storage.connCount db today + 1 :=
  taskCount_recordAction db today ts .connection

theorem taskCount_applyN (today : String) (ts : Int) (k : Limiter.TaskType) :
    ∀ (n : Nat) (db : Storage.Database),
      Limiter.taskCount (applyN (fun d => Limiter.RecordAction d today ts k) n db) today k =
        Limiter.taskCount db today k + n := by
  intro n
  induction n with
  | zero => intro db; rfl
  | succ m ih =>
      intro db
      show Limiter.taskCount
        (applyN (fun d => Limiter.RecordAction d today ts k) m
          (Limiter.RecordAction db today ts k)) today k = _
      rw [ih, taskCount_recordAction]
      omega

theorem checkDailyLimit_spec (cfg : Limiter.RateLimitConfig) (db : Storage.Database)
    (today : String) (now : Limiter.GoTime) (ts : Int) (k : Limiter.TaskType) :
    (Limiter.CheckDailyLimit cfg db today now ts k).1 =
      if Limiter.taskLimit cfg k ≤ Limiter.taskCount db today k then
        .error ⟨k, Limiter.taskCount db today k, Limiter.taskLimit cfg k,
                Limiter.getNextMidnight now⟩
      else .ok () := by
  cases k <;>
    · unfold Limiter.CheckDailyLimit Limiter.taskCount Limiter.taskLimit
        Storage.GetTodayRateLimit Storage.connCount Storage.msgCount Storage.searchCount
      cases hfind : db.rateLimits.find? (fun r => r.date == today) <;> simp [hfind, ge_iff_le, apply_ite]

/-! ## Claim C2: daily quota ceiling -/

/-- C2: for every configured ceiling and action kind, after ceiling-many
`RecordAction` calls of that kind starting from a fresh day (count 0), the
next `CheckDailyLimit` call for that kind fails with a rate-limit error
carrying the kind, the current count, the limit, and a reset time equal to
the next local midnight; and the check succeeds whenever the count is
strictly below the ceiling. -/
theorem C2_quota_ceiling :
    ∀ (cfg : Limiter.RateLimitConfig) (k : Limiter.TaskType) (today : String)
      (now : Limiter.GoTime) (ts : Int) (db0 : Storage.Database),
      Limiter.taskCount db0 today k = 0 →
      ((Limiter.CheckDailyLimit cfg
          (applyN (fun d => Limiter.RecordAction d today ts k)
            (Limiter.taskLimit cfg k) db0) today now ts k).1 =
        .error ⟨k, Limiter.taskLimit cfg k, Limiter.taskLimit cfg k,
                Limiter.getNextMidnight now⟩) ∧
      (∀ db : Storage.Database,
        Limiter.taskCount db today k < Limiter.taskLimit cfg k →
        (Limiter.CheckDailyLimit cfg db today now ts k).1 = .ok ()) := by
  intro cfg k today now ts db0 h0
  constructor
  · rw [checkDailyLimit_spec, taskCount_applyN, h0]
    simp
  · intro db hlt
    rw [checkDailyLimit_spec, if_neg (by omega)]

/-- C2 witness: with a connection ceiling of 2, two recorded connections
from an empty store exhaust the quota and the third check fails with the
full error; the check on the fresh store succeeds. -/
theorem C2_quota_ceiling_witness :
    (Limiter.CheckDailyLimit Fixtures.cfgC2
        (applyN (fun d => Limiter.RecordAction d "2026-01-15" 0 .connection) 2
          Storage.emptyDatabase) "2026-01-15" Fixtures.nowC2 0 .connection).1 =
      .error ⟨.connection, 2, 2, Limiter.getNextMidnight Fixtures.nowC2⟩ ∧
    (Limiter.CheckDailyLimit Fixtures.cfgC2 Storage.emptyDatabase "2026-01-15"
        Fixtures.nowC2 0 .connection).1 = .ok () :=
  ⟨(C2_quota_ceiling Fixtures.cfgC2 .connection "2026-01-15" Fixtures.nowC2 0
      Storage.emptyDatabase (by decide)).1,
   (C2_quota_ceiling Fixtures.cfgC2 .connection "2026-01-15" Fixtures.nowC2 0
      Storage.emptyDatabase (by decide)).2 Storage.emptyDatabase (by decide)⟩

/-! ## Accepted-profiles query lemmas -/

theorem mem_distinctRows {seen : List Storage.ProfileRow} {l : List Storage.ProfileRow}
    {p : Storage.ProfileRow} (h : p ∈ Storage.distinctRows seen l) : p ∈ l := by
  induction l generalizing seen with
  | nil => simp only [Storage.distinctRows] at h; exact absurd h (List.not_mem_nil p)
  | cons x xs ih =>
      unfold Storage.distinctRows at h
      by_cases hx : x ∈ seen
      · rw [if_pos hx] at h
        exact List.mem_cons_of_mem x (ih h)
      · rw [if_neg hx] at h
        rcases List.mem_cons.mp h with h1 | h2
        · exact h1 ▸ List.mem_cons_self x xs
        · exact List.mem_cons_of_mem x (ih h2)

/-- Unpacking membership in the accepted-profiles query result: the returned
profile is stored, some accepted unreplied in-window request row for it
exists, and no message to it was sent within the window. -/
theorem mem_getAcceptedConnectionProfiles {db : Storage.Database} {now : Int}
    {limit : Nat} {daysBack : Int} {p : Storage.ProfileRow}
    (h : p ∈ Storage.GetAcceptedConnectionProfiles db now limit daysBack) :
    p ∈ db.profiles ∧
    (∃ cr ∈ db.connectionRequests, cr.profileId = p.id ∧ cr.status = "accepted" ∧
      (cr.hasReplied = none ∨ cr.hasReplied = some false) ∧
      Storage.dayCutoff now daysBack ≤ cr.sentAt) ∧
    (∀ m ∈ db.messages, m.connectionId = p.id →
      m.sentAt < Storage.dayCutoff now daysBack) := by
  unfold Storage.GetAcceptedConnectionProfiles at h
  have h1 := mem_distinctRows ((List.take_sublist _ _).mem h)
  obtain ⟨pair, hpair, hfst⟩ := List.mem_map.mp h1
  have hjoin : pair ∈ Storage.acceptedJoin db now daysBack :=
    (List.perm_insertionSort _ _).mem_iff.mp hpair
  unfold Storage.acceptedJoin at hjoin
  obtain ⟨hflat, hpred⟩ := List.mem_filter.mp hjoin
  obtain ⟨prof, hprof, hpm⟩ := List.mem_flatMap.mp hflat
  obtain ⟨cr, hcr, hpc⟩ := List.mem_map.mp hpm
  subst hpc
  obtain rfl : prof = p := hfst
  simp only [Bool.and_eq_true] at hpred
  obtain ⟨⟨⟨⟨hid, hst⟩, hrep⟩, hwin⟩, hmsg⟩ := hpred
  rw [Bool.not_eq_true'] at hmsg
  refine ⟨hprof, ⟨cr, hcr, beq_iff_eq.mp hid, beq_iff_eq.mp hst, ?_,
      of_decide_eq_true hwin⟩, ?_⟩
  · rw [Bool.or_eq_true] at hrep
    rcases hrep with hn | hf
    · exact Or.inl (beq_iff_eq.mp hn)
    · exact Or.inr (beq_iff_eq.mp hf)
  · intro m hm hmid
    by_contra hge
    exact List.any_eq_false.mp hmsg m hm
      (by simp [hmid, le_of_not_lt hge])

/-! ## Claim C3: accepted-profiles query status and reply-flag filtering -/

/-- C3 counterexample: with two accepted request rows for one contact where
one row carries `has_replied = true`, the query still returns the contact —
so over arbitrary database states it can return a contact that has a
replied request row. -/
theorem C3_cex_replied_contact_returned :
    Fixtures.pAcc ∈ Storage.GetAcceptedConnectionProfiles Fixtures.dbC3 1000 10 30 ∧
    Fixtures.rRepliedTrue ∈ Fixtures.dbC3.connectionRequests ∧
    Fixtures.rRepliedTrue.profileId = Fixtures.pAcc.id ∧
    Fixtures.rRepliedTrue.hasReplied = some true := by decide

/-- C3 (amended): on databases satisfying the spec's uniqueness invariant
(at most one ConnectionRequest row per contact), every contact returned by
`GetAcceptedConnectionProfiles` has its request row accepted — never
`pending` or `rejected` — and never flagged `has_replied = true`;
unconditionally, every returned contact has at least one accepted,
unreplied, in-window request row. -/
theorem C3_accepted_profiles_filtered :
    ∀ (db : Storage.Database) (now : Int) (limit : Nat) (daysBack : Int)
      (p : Storage.ProfileRow),
      (∀ r1 ∈ db.connectionRequests, ∀ r2 ∈ db.connectionRequests,
          r1.profileId = r2.profileId → r1 = r2) →
      p ∈ Storage.GetAcceptedConnectionProfiles db now limit daysBack →
      (∃ cr ∈ db.connectionRequests, cr.profileId = p.id ∧ cr.status = "accepted" ∧
        (cr.hasReplied = none ∨ cr.hasReplied = some false)) ∧
      (∀ r ∈ db.connectionRequests, r.profileId = p.id →
        r.status ≠ "pending" ∧ r.status ≠ "rejected" ∧ r.hasReplied ≠ some true) := by
  intro db now limit daysBack p huniq hmem
  obtain ⟨-, ⟨cr, hcr, hcrid, hst, hrep, hwin⟩, -⟩ :=
    mem_getAcceptedConnectionProfiles hmem
  refine ⟨⟨cr, hcr, hcrid, hst, hrep⟩, ?_⟩
  intro r hr hrid
  have hreq : r = cr := huniq r hr cr hcr (hrid.trans hcrid.symm)
  subst hreq
  refine ⟨?_, ?_, ?_⟩
  · rw [hst]; decide
  · rw [hst]; decide
  · rcases hrep with hn | hf
    · rw [hn]; simp
    · rw [hf]; simp

/-- C3 witness: on a store with a single accepted unreplied request, the
returned contact's row is neither pending nor rejected nor replied. -/
theorem C3_accepted_profiles_witness :
    Fixtures.rRepliedFalse.status ≠ "pending" ∧
    Fixtures.rRepliedFalse.status ≠ "rejected" ∧
    Fixtures.rRepliedFalse.hasReplied ≠ some true :=
  (C3_accepted_profiles_filtered Fixtures.dbC3w 1000 10 30 Fixtures.pAcc
      (by decide) (by decide)).2 Fixtures.rRepliedFalse (by decide) (by decide)

/-! ## Claim C4: accepted-profiles query and prior messages -/

/-- C4 counterexample: a contact with a recorded message older than the
window is still returned — the query excludes only messages sent within
`daysBack` days, not any recorded message whatsoever. -/
theorem C4_cex_old_message_not_excluded :
    Fixtures.pAcc ∈ Storage.GetAcceptedConnectionProfiles Fixtures.dbC4 1000 10 30 ∧
    Fixtures.mOld ∈ Fixtures.dbC4.messages ∧
    Fixtures.mOld.connectionId = Fixtures.pAcc.id := by decide

/-- C4 (amended): every contact returned by `GetAcceptedConnectionProfiles`
has no message recorded within the last `daysBack` days (messages older
than the window do not exclude a contact). -/
theorem C4_no_recent_message :
    ∀ (db : Storage.Database) (now : Int) (limit : Nat) (daysBack : Int)
      (p : Storage.ProfileRow),
      p ∈ Storage.GetAcceptedConnectionProfiles db now limit daysBack →
      ∀ m ∈ db.messages, m.connectionId = p.id →
        m.sentAt < Storage.dayCutoff now daysBack := by
  intro db now limit daysBack p hmem
  exact (mem_getAcceptedConnectionProfiles hmem).2.2

/-- C4 witness: the fixture's stale message is indeed outside the window of
the query that returned its contact. -/
theorem C4_no_recent_message_witness :
    Fixtures.mOld.sentAt < Storage.dayCutoff 1000 30 :=
  C4_no_recent_message Fixtures.dbC4 1000 10 30 Fixtures.pAcc (by decide)
    Fixtures.mOld (by decide) (by decide)

/-! ## Batch-loop lemmas -/

theorem connCount_getTodayRateLimit (db : Storage.Database) (today : String) (ts : Int) :
    Storage.connCount (Storage.GetTodayRateLimit db today ts).2 today =
      Storage.connCount db today := by
  unfold Storage.GetTodayRateLimit Storage.connCount
  cases hfind : db.rateLimits.find? (fun r => r.date == today) with
  | some r => simp [hfind]
  | none =>
      have hone : (db.rateLimits ++ [(⟨today, 0, 0, 0, ts⟩ : Storage.RateLimitRow)]).find?
          (fun r => r.date == today) = some (⟨today, 0, 0, 0, ts⟩ : Storage.RateLimitRow) := by
        rw [find?_append_none hfind]
        simp [List.find?_cons]
      simp [hfind, hone]

theorem checkDailyLimit_conn_full (cfg : Limiter.RateLimitConfig) (db : Storage.Database)
    (today : String) (now : Limiter.GoTime) (ts : Int) :
    Limiter.CheckDailyLimit cfg db today now ts .connection =
      (if cfg.maxConnectionsPerDay ≤ Storage.connCount db today then
        .error ⟨.connection, Storage.connCount db today, cfg.maxConnectionsPerDay,
                Limiter.getNextMidnight now⟩
      else .ok (),
      (Storage.GetTodayRateLimit db today ts).2) := by
  unfold Limiter.CheckDailyLimit Storage.GetTodayRateLimit Storage.connCount
  cases hfind : db.rateLimits.find? (fun r => r.date == today) <;>
    simp only [hfind, ge_iff_le] <;> split <;> rfl

theorem connCount_saveConnectionRequest (db db' : Storage.Database) (pid : String)
    (s : Int) (note st : String) (c : Int) (today : String)
    (h : Storage.SaveConnectionRequest db pid s note st c = .ok db') :
    Storage.connCount db' today = Storage.connCount db today := by
  have := Except.ok.inj h
  subst this
  rfl

/-- Per-field behaviour of one full batch run under sufficient quota: each
statistics counter ends up equal to the number of outcomes in its class. -/
theorem sendLoop_spec (cfg : Limiter.RateLimitConfig) (today : String)
    (now : Limiter.GoTime) (ts : Int) :
    ∀ (outcomes : List (Batch.ConnRequest × Option String)) (db : Storage.Database)
      (stats : Batch.ConnectionStats),
      Storage.connCount db today + outcomes.length ≤ cfg.maxConnectionsPerDay →
      (Batch.sendLoop cfg today now ts outcomes db stats).1.totalAttempted =
          stats.totalAttempted + outcomes.length ∧
      (Batch.sendLoop cfg today now ts outcomes db stats).1.failed =
          stats.failed + (outcomes.filter (fun oc => Batch.countsAsFailed oc.2)).length ∧
      (Batch.sendLoop cfg today now ts outcomes db stats).1.alreadyConnected =
          stats.alreadyConnected +
            (outcomes.filter (fun oc => Batch.countsAsAlreadyConnected oc.2)).length ∧
      (Batch.sendLoop cfg today now ts outcomes db stats).1.pending =
          stats.pending + (outcomes.filter (fun oc => Batch.countsAsPending oc.2)).length ∧
      (Batch.sendLoop cfg today now ts outcomes db stats).1.successful =
          stats.successful + (outcomes.filter (fun oc => Batch.countsAsSuccess oc.2)).length := by
  intro outcomes
  induction outcomes with
  | nil =>
      intro db stats h
      simp [Batch.sendLoop]
  | cons oc rest ih =>
      intro db stats h
      obtain ⟨req, o⟩ := oc
      rw [List.length_cons] at h
      have hlt : Storage.connCount db today < cfg.maxConnectionsPerDay := by omega
      have hrest : Storage.connCount (Storage.GetTodayRateLimit db today ts).2 today +
          rest.length ≤ cfg.maxConnectionsPerDay := by
        rw [connCount_getTodayRateLimit]; omega
      simp only [Batch.sendLoop, checkDailyLimit_conn_full, if_neg (not_le.mpr hlt)]
      cases o with
      | some e =>
          by_cases h1 : goContains e Batch.errAlreadyConnected
          · simp only [h1, if_true]
            have := ih (Storage.GetTodayRateLimit db today ts).2
              { stats with totalAttempted := stats.totalAttempted + 1,
                           alreadyConnected := stats.alreadyConnected + 1 } hrest
            simp only [List.filter_cons]
            simp [Batch.countsAsFailed, Batch.countsAsAlreadyConnected,
              Batch.countsAsPending, Batch.countsAsSuccess, h1, this.1, this.2.1,
              this.2.2.1, this.2.2.2.1, this.2.2.2.2]
            omega
          · by_cases h2 : goContains e Batch.errConnectionPending
            · simp only [h1, if_false, h2, if_true, Bool.false_eq_true]
              have := ih (Storage.GetTodayRateLimit db today ts).2
                { stats with totalAttempted := stats.totalAttempted + 1,
                             pending := stats.pending + 1 } hrest
              simp only [List.filter_cons]
              simp [Batch.countsAsFailed, Batch.countsAsAlreadyConnected,
                Batch.countsAsPending, Batch.countsAsSuccess, h1, h2, this.1, this.2.1,
                this.2.2.1, this.2.2.2.1, this.2.2.2.2]
              omega
            · simp only [h1, h2, if_false, Bool.false_eq_true]
              have := ih (Storage.GetTodayRateLimit db today ts).2
                { stats with totalAttempted := stats.totalAttempted + 1,
                             failed := stats.failed + 1,
                             errors := stats.errors ++ [req.name ++ ": " ++ e] } hrest
              simp only [List.filter_cons]
              simp [Batch.countsAsFailed, Batch.countsAsAlreadyConnected,
                Batch.countsAsPending, Batch.countsAsSuccess, h1, h2, this.1, this.2.1,
                this.2.2.1, this.2.2.2.1, this.2.2.2.2]
              omega
      | none =>
          have hsucc : Storage.connCount
              (Limiter.RecordAction
                (match Storage.SaveConnectionRequest (Storage.GetTodayRateLimit db today ts).2
                    req.profileId ts req.note "pending" ts with
                  | .ok d => d
                  | .error _ => (Storage.GetTodayRateLimit db today ts).2) today ts .connection)
              today + rest.length ≤ cfg.maxConnectionsPerDay := by
            rw [connCount_recordAction_conn]
            show Storage.connCount (Storage.GetTodayRateLimit db today ts).2 today + 1 +
              rest.length ≤ cfg.maxConnectionsPerDay
            rw [connCount_getTodayRateLimit]
            omega
          have := ih _ { stats with totalAttempted := stats.totalAttempted + 1,
                                    successful := stats.successful + 1 } hsucc
          simp only [List.filter_cons]
          simp [Batch.countsAsFailed, Batch.countsAsAlreadyConnected,
            Batch.countsAsPending, Batch.countsAsSuccess, this.1, this.2.1,
            this.2.2.1, this.2.2.2.1, this.2.2.2.2]
          omega

/-! ## Claim C7: non-fatal outcomes in the connect stage -/

/-- C7 counterexample: a "connect button not found" outcome does increment
the `Failed` counter — the loop's substring tests exempt only
"already connected" and "connection pending" from the failure tally. -/
theorem C7_cex_not_found_counts_as_failure :
    (Batch.SendConnectionRequests Fixtures.cfgC7 "2026-01-15" Fixtures.nowC2 0
        [(Fixtures.reqC7, some Batch.errConnectButtonNotFound)]
        Storage.emptyDatabase).1 =
      ⟨1, 0, 1, 0, 0, ["X: " ++ Batch.errConnectButtonNotFound]⟩ := by decide

/-- C7 (amended): under sufficient quota, the run statistics classify
outcomes exactly as the code's substring tests do: "already connected" and
"connection pending" outcomes are tallied separately and do not increment
`Failed`, while every other error — including the actuator's "connect
button not found" — does; processing always continues to the next contact,
so every outcome is counted in exactly one bucket. -/
theorem C7_failure_tally :
    ∀ (cfg : Limiter.RateLimitConfig) (today : String) (now : Limiter.GoTime)
      (ts : Int) (outcomes : List (Batch.ConnRequest × Option String))
      (db : Storage.Database),
      Storage.connCount db today + outcomes.length ≤ cfg.maxConnectionsPerDay →
      (Batch.SendConnectionRequests cfg today now ts outcomes db).1.totalAttempted =
          outcomes.length ∧
      (Batch.SendConnectionRequests cfg today now ts outcomes db).1.failed =
          (outcomes.filter (fun oc => Batch.countsAsFailed oc.2)).length ∧
      (Batch.SendConnectionRequests cfg today now ts outcomes db).1.alreadyConnected =
          (outcomes.filter (fun oc => Batch.countsAsAlreadyConnected oc.2)).length ∧
      (Batch.SendConnectionRequests cfg today now ts outcomes db).1.pending =
          (outcomes.filter (fun oc => Batch.countsAsPending oc.2)).length ∧
      (Batch.SendConnectionRequests cfg today now ts outcomes db).1.successful =
          (outcomes.filter (fun oc => Batch.countsAsSuccess oc.2)).length ∧
      Batch.countsAsFailed (some Batch.errConnectButtonNotFound) = true ∧
      Batch.countsAsFailed (some Batch.errAlreadyConnected) = false ∧
      Batch.countsAsFailed (some Batch.errConnectionPending) = false := by
  intro cfg today now ts outcomes db h
  have := sendLoop_spec cfg today now ts outcomes db Batch.ConnectionStats.init h
  refine ⟨?_, ?_, ?_, ?_, ?_, by decide, by decide, by decide⟩ <;>
    simp only [Batch.SendConnectionRequests, Batch.ConnectionStats.init] at this ⊢ <;>
    omega

/-- C7 witness: a four-outcome run (already connected, pending, success,
button not found) yields exactly one entry in each bucket, the failure
being the button-not-found error. -/
theorem C7_failure_tally_witness :
    (Batch.SendConnectionRequests Fixtures.cfgC7 "2026-01-15" Fixtures.nowC2 0
        Fixtures.outcomesC7w Storage.emptyDatabase).1.totalAttempted =
      Fixtures.outcomesC7w.length ∧
    (Batch.SendConnectionRequests Fixtures.cfgC7 "2026-01-15" Fixtures.nowC2 0
        Fixtures.outcomesC7w Storage.emptyDatabase).1.failed =
      (Fixtures.outcomesC7w.filter (fun oc => Batch.countsAsFailed oc.2)).length ∧
    (Batch.SendConnectionRequests Fixtures.cfgC7 "2026-01-15" Fixtures.nowC2 0
        Fixtures.outcomesC7w Storage.emptyDatabase).1.alreadyConnected =
      (Fixtures.outcomesC7w.filter (fun oc => Batch.countsAsAlreadyConnected oc.2)).length ∧
    (Batch.SendConnectionRequests Fixtures.cfgC7 "2026-01-15" Fixtures.nowC2 0
        Fixtures.outcomesC7w Storage.emptyDatabase).1.pending =
      (Fixtures.outcomesC7w.filter (fun oc => Batch.countsAsPending oc.2)).length ∧
    (Batch.SendConnectionRequests Fixtures.cfgC7 "2026-01-15" Fixtures.nowC2 0
        Fixtures.outcomesC7w Storage.emptyDatabase).1.successful =
      (Fixtures.outcomesC7w.filter (fun oc => Batch.countsAsSuccess oc.2)).length := by
  have := C7_failure_tally Fixtures.cfgC7 "2026-01-15" Fixtures.nowC2 0
    Fixtures.outcomesC7w Storage.emptyDatabase (by decide)
  exact ⟨this.1, this.2.1, this.2.2.1, this.2.2.2.1, this.2.2.2.2.1⟩

/-! ## Claim C10: template rendering round-trip -/

set_option maxHeartbeats 1000000 in
/-- C10 counterexample: rendering the claim's literal body fails, because
its placeholders lack the leading dot of the `text/template` field syntax —
`\x7b\x7bFirstName\x7d\x7d` is parsed as a call to an undefined function,
exactly as Go's parser rejects it (the repository's templates all use
`\x7b\x7b.FirstName\x7d\x7d`). -/
theorem C10_cex_undotted_placeholders_fail :
    Templates.RenderTemplate Fixtures.tmplClaimC10 Fixtures.varsAda "January 2, 2026" =
      .error "failed to parse template: function \"FirstName\" not defined" := rfl

set_option maxHeartbeats 2000000 in
/-- C10 (amended): with the dotted placeholder syntax the code actually
uses, rendering succeeds and yields exactly
"Hi Ada, I noticed you\x27re a Engineer at Acme.", with no residual
placeholder syntax.  (The `nowDate` argument models the `time.Now()` date
default; the template has no `.Date` placeholder, so its value is inert,
and the rendering is additionally shown to be identical under a second
date.) -/
theorem C10_dotted_render_exact :
    Templates.RenderTemplate Fixtures.tmplDottedC10 Fixtures.varsAda "January 2, 2026" =
      .ok Fixtures.renderedC10 ∧
    Templates.RenderTemplate Fixtures.tmplDottedC10 Fixtures.varsAda "March 9, 2027" =
      Templates.RenderTemplate Fixtures.tmplDottedC10 Fixtures.varsAda "January 2, 2026" ∧
    goContains Fixtures.renderedC10 "\x7b\x7b" = false :=
  ⟨rfl, rfl, by decide⟩

/-! ## Whitespace cleanup: substring-test bridge -/

theorem isPrefixB_iff : ∀ pat s : List Char, isPrefixB pat s = true ↔ pat <+: s := by
  intro pat
  induction pat with
  | nil => intro s; simp [isPrefixB]
  | cons a as ih =>
      intro s
      cases s with
      | nil =>
          simp only [isPrefixB, Bool.false_eq_true, false_iff]
          intro h
          simp at h
      | cons b bs =>
          simp only [isPrefixB, Bool.and_eq_true, beq_iff_eq, List.cons_prefix_cons]
          exact and_congr_right (fun _ => ih bs)

theorem containsSeq_iff : ∀ pat s : List Char, containsSeq pat s = true ↔ pat <:+: s := by
  intro pat s
  induction s with
  | nil =>
      show isPrefixB pat [] = true ↔ _
      rw [isPrefixB_iff]
      constructor
      · intro h; exact h.isInfix
      · intro h
        have := List.eq_nil_of_infix_nil h
        subst this
        exact List.nil_prefix
  | cons c t ih =>
      show (isPrefixB pat (c :: t) || containsSeq pat t) = true ↔ _
      rw [Bool.or_eq_true, isPrefixB_iff, ih, List.infix_cons_iff]

/-! ## Whitespace cleanup: one replacement pass shrinks the text -/

theorem replaceSp_length_le : ∀ s : List Char,
    (Templates.replaceSp s).length ≤ s.length := by
  intro s
  induction s using Templates.replaceSp.induct with
  | case1 => simp [Templates.replaceSp]
  | case2 c => simp [Templates.replaceSp]
  | case3 c d rest h ih =>
      simp only [Templates.replaceSp, if_pos h, List.length_cons]
      omega
  | case4 c d rest h ih =>
      simp only [Templates.replaceSp, if_neg h, List.length_cons]
      simp only [List.length_cons] at ih
      omega

theorem replaceSp_length_lt : ∀ s : List Char, [' ', ' '] <:+: s →
    (Templates.replaceSp s).length < s.length := by
  intro s
  induction s using Templates.replaceSp.induct with
  | case1 =>
      intro h
      have := h.length_le
      simp at this
  | case2 c =>
      intro h
      have := h.length_le
      simp at this
  | case3 c d rest h ih =>
      intro _
      simp only [Templates.replaceSp, if_pos h, List.length_cons]
      have := replaceSp_length_le rest
      omega
  | case4 c d rest h ih =>
      intro hinf
      have h2 : [' ', ' '] <:+: d :: rest := by
        rcases List.infix_cons_iff.mp hinf with hp | hi
        · rw [List.cons_prefix_cons] at hp
          obtain ⟨he1, hp2⟩ := hp
          rw [List.cons_prefix_cons] at hp2
          exact absurd ⟨he1.symm, hp2.1.symm⟩ h
        · exact hi
      simp only [Templates.replaceSp, if_neg h, List.length_cons]
      exact Nat.succ_lt_succ (ih h2)

theorem replaceNl3_length_le : ∀ s : List Char,
    (Templates.replaceNl3 s).length ≤ s.length := by
  intro s
  induction s using Templates.replaceNl3.induct with
  | case1 => simp [Templates.replaceNl3]
  | case2 c => simp [Templates.replaceNl3]
  | case3 c d => simp [Templates.replaceNl3]
  | case4 c d e rest h ih =>
      simp only [Templates.replaceNl3, if_pos h, List.length_cons]
      omega
  | case5 c d e rest h ih =>
      simp only [Templates.replaceNl3, if_neg h, List.length_cons]
      simp only [List.length_cons] at ih
      omega

theorem replaceNl3_length_lt : ∀ s : List Char, ['\n', '\n', '\n'] <:+: s →
    (Templates.replaceNl3 s).length < s.length := by
  intro s
  induction s using Templates.replaceNl3.induct with
  | case1 =>
      intro h
      have := h.length_le
      simp at this
  | case2 c =>
      intro h
      have := h.length_le
      simp at this
  | case3 c d =>
      intro h
      have := h.length_le
      simp at this
  | case4 c d e rest h ih =>
      intro _
      simp only [Templates.replaceNl3, if_pos h, List.length_cons]
      have := replaceNl3_length_le rest
      omega
  | case5 c d e rest h ih =>
      intro hinf
      have h2 : ['\n', '\n', '\n'] <:+: d :: e :: rest := by
        rcases List.infix_cons_iff.mp hinf with hp | hi
        · rw [List.cons_prefix_cons] at hp
          obtain ⟨he1, hp2⟩ := hp
          rw [List.cons_prefix_cons] at hp2
          obtain ⟨he2, hp3⟩ := hp2
          rw [List.cons_prefix_cons] at hp3
          exact absurd ⟨he1.symm, he2.symm, hp3.1.symm⟩ h
        · exact hi
      simp only [Templates.replaceNl3, if_neg h, List.length_cons]
      exact Nat.succ_lt_succ (ih h2)

/-! ## Whitespace cleanup: the collapse loops reach their fixed points -/

theorem collapseSpacesFuel_no_pair : ∀ (n : Nat) (s : List Char), s.length ≤ n →
    goContainsL (Templates.collapseSpacesFuel n s) [' ', ' '] = false := by
  intro n
  induction n with
  | zero =>
      intro s hs
      have hnil : s = [] := List.length_eq_zero.mp (Nat.le_zero.mp hs)
      subst hnil
      rfl
  | succ m ih =>
      intro s hs
      simp only [Templates.collapseSpacesFuel]
      cases hb : goContainsL s [' ', ' '] with
      | true =>
          simp only [hb, if_true]
          apply ih
          have hlt := replaceSp_length_lt s ((containsSeq_iff [' ', ' '] s).mp hb)
          omega
      | false =>
          simp only [hb, Bool.false_eq_true, if_false]

theorem collapseSpacesFuel_id (n : Nat) (s : List Char)
    (h : goContainsL s [' ', ' '] = false) :
    Templates.collapseSpacesFuel n s = s := by
  cases n with
  | zero => rfl
  | succ m => simp [Templates.collapseSpacesFuel, h]

theorem collapseSpacesFuel_pres (P : List Char → Prop)
    (hstep : ∀ s, P s → P (Templates.replaceSp s)) :
    ∀ (n : Nat) (s : List Char), P s → P (Templates.collapseSpacesFuel n s) := by
  intro n
  induction n with
  | zero => intro s hp; exact hp
  | succ m ih =>
      intro s hp
      simp only [Templates.collapseSpacesFuel]
      cases hb : goContainsL s [' ', ' '] with
      | true =>
          simp only [hb, if_true]
          exact ih _ (hstep s hp)
      | false =>
          simp only [hb, Bool.false_eq_true, if_false]
          exact hp

theorem collapseNewlinesFuel_no_triple : ∀ (n : Nat) (s : List Char), s.length ≤ n →
    goContainsL (Templates.collapseNewlinesFuel n s) ['\n', '\n', '\n'] = false := by
  intro n
  induction n with
  | zero =>
      intro s hs
      have hnil : s = [] := List.length_eq_zero.mp (Nat.le_zero.mp hs)
      subst hnil
      rfl
  | succ m ih =>
      intro s hs
      simp only [Templates.collapseNewlinesFuel]
      cases hb : goContainsL s ['\n', '\n', '\n'] with
      | true =>
          simp only [hb, if_true]
          apply ih
          have hlt := replaceNl3_length_lt s ((containsSeq_iff ['\n', '\n', '\n'] s).mp hb)
          omega
      | false =>
          simp only [hb, Bool.false_eq_true, if_false]

theorem collapseNewlinesFuel_id (n : Nat) (s : List Char)
    (h : goContainsL s ['\n', '\n', '\n'] = false) :
    Templates.collapseNewlinesFuel n s = s := by
  cases n with
  | zero => rfl
  | succ m => simp [Templates.collapseNewlinesFuel, h]

theorem collapseNewlinesFuel_pres (P : List Char → Prop)
    (hstep : ∀ s, P s → P (Templates.replaceNl3 s)) :
    ∀ (n : Nat) (s : List Char), P s → P (Templates.collapseNewlinesFuel n s) := by
  intro n
  induction n with
  | zero => intro s hp; exact hp
  | succ m ih =>
      intro s hp
      simp only [Templates.collapseNewlinesFuel]
      cases hb : goContainsL s ['\n', '\n', '\n'] with
      | true =>
          simp only [hb, if_true]
          exact ih _ (hstep s hp)
      | false =>
          simp only [hb, Bool.false_eq_true, if_false]
          exact hp

/-! ## Split/join structure lemmas -/

theorem splitChar_cons_sep (sep : Char) (t : List Char) :
    Templates.splitChar sep (sep :: t) = [] :: Templates.splitChar sep t := by
  simp [Templates.splitChar]

theorem splitChar_cons_ne (sep c : Char) (t : List Char) (h : c ≠ sep) :
    Templates.splitChar sep (c :: t) =
      Templates.consHead c (Templates.splitChar sep t) := by
  simp [Templates.splitChar, h]

theorem splitChar_ne_nil (sep : Char) : ∀ s : List Char,
    Templates.splitChar sep s ≠ [] := by
  intro s
  cases s with
  | nil => simp [Templates.splitChar]
  | cons c t =>
      by_cases h : c = sep
      · subst h; rw [splitChar_cons_sep]; simp
      · rw [splitChar_cons_ne sep c t h]
        cases Templates.splitChar sep t with
        | nil => simp [Templates.consHead]
        | cons q ps => simp [Templates.consHead]

theorem joinChar_splitChar (sep : Char) : ∀ s : List Char,
    Templates.joinChar sep (Templates.splitChar sep s) = s := by
  intro s
  induction s with
  | nil => rfl
  | cons c t ih =>
      by_cases h : c = sep
      · rw [h, splitChar_cons_sep]
        obtain ⟨q, ps, hqp⟩ := List.exists_cons_of_ne_nil (splitChar_ne_nil sep t)
        rw [hqp]
        rw [hqp] at ih
        show Templates.joinChar sep ([] :: q :: ps) = _
        simp only [Templates.joinChar, List.nil_append]
        rw [ih]
      · rw [splitChar_cons_ne sep c t h]
        obtain ⟨q, ps, hqp⟩ := List.exists_cons_of_ne_nil (splitChar_ne_nil sep t)
        rw [hqp]
        rw [hqp] at ih
        cases ps with
        | nil =>
            show Templates.joinChar sep [c :: q] = c :: t
            simp only [Templates.joinChar]
            simp only [Templates.joinChar] at ih
            rw [ih]
        | cons r ps' =>
            show Templates.joinChar sep ((c :: q) :: r :: ps') = c :: t
            simp only [Templates.joinChar, List.cons_append]
            simp only [Templates.joinChar] at ih
            rw [← ih]

theorem splitChar_no_sep (sep : Char) : ∀ s : List Char,
    ∀ p ∈ Templates.splitChar sep s, sep ∉ p := by
  intro s
  induction s with
  | nil =>
      intro p hp
      simp [Templates.splitChar] at hp
      subst hp
      simp
  | cons c t ih =>
      intro p hp
      by_cases h : c = sep
      · subst h
        rw [splitChar_cons_sep] at hp
        rcases List.mem_cons.mp hp with h1 | h2
        · subst h1; simp
        · exact ih p h2
      · rw [splitChar_cons_ne sep c t h] at hp
        obtain ⟨q, ps, hqp⟩ := List.exists_cons_of_ne_nil (splitChar_ne_nil sep t)
        rw [hqp] at hp
        simp only [Templates.consHead] at hp
        rcases List.mem_cons.mp hp with h1 | h2
        · subst h1
          intro hmem
          rcases List.mem_cons.mp hmem with h3 | h4
          · exact h h3.symm
          · exact ih q (hqp ▸ List.mem_cons_self q ps) h4
        · exact ih p (hqp ▸ List.mem_cons_of_mem q h2)

theorem splitChar_of_not_mem (sep : Char) : ∀ p : List Char, sep ∉ p →
    Templates.splitChar sep p = [p] := by
  intro p
  induction p with
  | nil => intro _; rfl
  | cons c p' ih =>
      intro h
      have hc : c ≠ sep := fun hh => h (hh ▸ List.mem_cons_self c p')
      have hp' : sep ∉ p' := fun hh => h (List.mem_cons_of_mem c hh)
      rw [splitChar_cons_ne sep c p' hc, ih hp']
      rfl

theorem splitChar_append_sep (sep : Char) : ∀ (p t : List Char), sep ∉ p →
    Templates.splitChar sep (p ++ sep :: t) = p :: Templates.splitChar sep t := by
  intro p
  induction p with
  | nil =>
      intro t _
      rw [List.nil_append, splitChar_cons_sep]
  | cons c p' ih =>
      intro t h
      have hc : c ≠ sep := fun hh => h (hh ▸ List.mem_cons_self c p')
      have hp' : sep ∉ p' := fun hh => h (List.mem_cons_of_mem c hh)
      rw [List.cons_append, splitChar_cons_ne sep c _ hc, ih t hp']
      rfl

theorem splitChar_joinChar (sep : Char) : ∀ ps : List (List Char), ps ≠ [] →
    (∀ p ∈ ps, sep ∉ p) →
    Templates.splitChar sep (Templates.joinChar sep ps) = ps := by
  intro ps
  induction ps with
  | nil => intro h _; exact absurd rfl h
  | cons p qs ih =>
      intro _ hall
      cases qs with
      | nil =>
          show Templates.splitChar sep p = [p]
          exact splitChar_of_not_mem sep p (hall p (List.mem_cons_self p []))
      | cons q qs' =>
          show Templates.splitChar sep (p ++ sep :: Templates.joinChar sep (q :: qs')) = _
          rw [splitChar_append_sep sep p _ (hall p (List.mem_cons_self p _))]
          rw [ih (by simp) (fun r hr => hall r (List.mem_cons_of_mem p hr))]

theorem splitChar_head_prefix_self (sep : Char) : ∀ s : List Char,
    ∃ h t, Templates.splitChar sep s = h :: t ∧ h <+: s := by
  intro s
  induction s with
  | nil => exact ⟨[], [], rfl, List.nil_prefix⟩
  | cons c t ih =>
      by_cases hc : c = sep
      · rw [hc]
        exact ⟨[], Templates.splitChar sep t, splitChar_cons_sep sep t, List.nil_prefix⟩
      · obtain ⟨h, t', heq, hp⟩ := ih
        refine ⟨c :: h, t', ?_, List.cons_prefix_cons.mpr ⟨rfl, hp⟩⟩
        rw [splitChar_cons_ne sep c t hc, heq]
        rfl

theorem infix_of_mem_splitChar (sep : Char) : ∀ (s : List Char) (p : List Char),
    p ∈ Templates.splitChar sep s → p <:+: s := by
  intro s
  induction s with
  | nil =>
      intro p hp
      simp [Templates.splitChar] at hp
      subst hp
      exact List.nil_infix
  | cons c t ih =>
      intro p hp
      by_cases hc : c = sep
      · subst hc
        rw [splitChar_cons_sep] at hp
        rcases List.mem_cons.mp hp with h1 | h2
        · subst h1; exact List.nil_infix
        · exact List.infix_cons (ih p h2)
      · obtain ⟨h, t', heq, hpre⟩ := splitChar_head_prefix_self sep t
        rw [splitChar_cons_ne sep c t hc, heq] at hp
        simp only [Templates.consHead] at hp
        rcases List.mem_cons.mp hp with h1 | h2
        · subst h1
          exact (List.cons_prefix_cons.mpr ⟨rfl, hpre⟩).isInfix
        · exact List.infix_cons (ih p (heq ▸ List.mem_cons_of_mem h h2))

theorem splitChar_append_last_sep (sep : Char) : ∀ ys : List Char,
    Templates.splitChar sep (ys ++ [sep]) =
      Templates.splitChar sep ys ++ [[]] := by
  intro ys
  induction ys with
  | nil =>
      rw [List.nil_append, splitChar_cons_sep]
      rfl
  | cons c t ih =>
      by_cases hc : c = sep
      · subst hc
        rw [List.cons_append, splitChar_cons_sep, splitChar_cons_sep, ih]
        rfl
      · rw [List.cons_append, splitChar_cons_ne sep c _ hc, splitChar_cons_ne sep c t hc, ih]
        obtain ⟨q, ps, hqp⟩ := List.exists_cons_of_ne_nil (splitChar_ne_nil sep t)
        rw [hqp]
        rfl

theorem splitChar_append_last_ne (sep c : Char) (hc : c ≠ sep) : ∀ ys : List Char,
    ∃ qs q, Templates.splitChar sep ys = qs ++ [q] ∧
      Templates.splitChar sep (ys ++ [c]) = qs ++ [q ++ [c]] := by
  intro ys
  induction ys with
  | nil =>
      refine ⟨[], [], rfl, ?_⟩
      rw [List.nil_append, splitChar_cons_ne sep c [] hc]
      rfl
  | cons d t ih =>
      obtain ⟨qs, q, h1, h2⟩ := ih
      by_cases hd : d = sep
      · subst hd
        refine ⟨[] :: qs, q, ?_, ?_⟩
        · rw [splitChar_cons_sep, h1]; rfl
        · rw [List.cons_append, splitChar_cons_sep, h2]; rfl
      · cases qs with
        | nil =>
            refine ⟨[], d :: q, ?_, ?_⟩
            · rw [splitChar_cons_ne sep d t hd, h1]; rfl
            · rw [List.cons_append, splitChar_cons_ne sep d _ hd, h2]; rfl
        | cons q0 qs' =>
            refine ⟨(d :: q0) :: qs', q, ?_, ?_⟩
            · rw [splitChar_cons_ne sep d t hd, h1]; rfl
            · rw [List.cons_append, splitChar_cons_ne sep d _ hd, h2]; rfl

/-! ## Trim lemmas -/

theorem prefix_head_eq {α : Type} {l₁ l₂ : List α} (h : l₁ <+: l₂) (hne : l₁ ≠ []) :
    l₁.head? = l₂.head? := by
  obtain ⟨t, rfl⟩ := h
  cases l₁ with
  | nil => exact absurd rfl hne
  | cons a l => rfl

theorem head_dropWhile_not {α : Type} (p : α → Bool) : ∀ l : List α,
    ∀ x ∈ (l.dropWhile p).head?, p x = false := by
  intro l
  induction l with
  | nil => intro x hx; simp at hx
  | cons a t ih =>
      intro x hx
      rw [List.dropWhile_cons] at hx
      by_cases ha : p a
      · rw [if_pos ha] at hx
        exact ih x hx
      · rw [if_neg ha] at hx
        simp only [List.head?_cons, Option.mem_def, Option.some.injEq] at hx
        subst hx
        exact Bool.not_eq_true _ ▸ Bool.of_not_eq_true ha

theorem dropWhile_eq_self_of_head {α : Type} (p : α → Bool) (l : List α)
    (h : ∀ x ∈ l.head?, p x = false) : l.dropWhile p = l := by
  cases l with
  | nil => rfl
  | cons a t =>
      rw [List.dropWhile_cons, if_neg]
      rw [h a rfl]
      simp

theorem ldrop_length_le (s : List Char) : (ldrop s).length ≤ s.length :=
  (List.dropWhile_suffix goIsSpace).sublist.length_le

theorem rdrop_length_le (s : List Char) : (rdrop s).length ≤ s.length := by
  unfold rdrop
  rw [List.length_reverse]
  calc (s.reverse.dropWhile goIsSpace).length ≤ s.reverse.length :=
        (List.dropWhile_suffix goIsSpace).sublist.length_le
    _ = s.length := List.length_reverse s

theorem rdrop_prefix_self (s : List Char) : rdrop s <+: s := by
  unfold rdrop
  have h1 : s.reverse.dropWhile goIsSpace <:+ s.reverse := List.dropWhile_suffix goIsSpace
  have := List.reverse_prefix.mpr h1
  rwa [List.reverse_reverse] at this

theorem rdrop_append_ws {c : Char} (hc : goIsSpace c = true) (ys : List Char) :
    rdrop (ys ++ [c]) = rdrop ys := by
  unfold rdrop
  rw [List.reverse_concat, List.dropWhile_cons, if_pos hc]

theorem rdrop_append_not_ws {c : Char} (hc : goIsSpace c = false) (ys : List Char) :
    rdrop (ys ++ [c]) = ys ++ [c] := by
  unfold rdrop
  rw [List.reverse_concat, List.dropWhile_cons, if_neg (by rw [hc]; simp)]
  rw [← List.reverse_concat, List.reverse_reverse]

theorem rdrop_eq_self_of_last (s : List Char)
    (h : ∀ x ∈ s.getLast?, goIsSpace x = false) : rdrop s = s := by
  unfold rdrop
  rw [dropWhile_eq_self_of_head goIsSpace s.reverse
    (by rw [List.head?_reverse]; exact h), List.reverse_reverse]

theorem ldrop_eq_self_of_head (s : List Char)
    (h : ∀ x ∈ s.head?, goIsSpace x = false) : ldrop s = s :=
  dropWhile_eq_self_of_head goIsSpace s h

theorem trimL_infix_self (s : List Char) : trimL s <:+: s := by
  unfold trimL
  exact (rdrop_prefix_self (ldrop s)).isInfix.trans (List.dropWhile_suffix goIsSpace).isInfix

theorem trimL_length_le (s : List Char) : (trimL s).length ≤ s.length :=
  (trimL_infix_self s).length_le

theorem head_trimL_not_ws (s : List Char) :
    ∀ x ∈ (trimL s).head?, goIsSpace x = false := by
  intro x hx
  unfold trimL at hx
  have hne : rdrop (ldrop s) ≠ [] := by
    intro hh
    rw [hh] at hx
    simp at hx
  rw [prefix_head_eq (rdrop_prefix_self (ldrop s)) hne] at hx
  exact head_dropWhile_not goIsSpace s x hx

theorem last_trimL_not_ws (s : List Char) :
    ∀ x ∈ (trimL s).getLast?, goIsSpace x = false := by
  intro x hx
  unfold trimL rdrop at hx
  rw [List.getLast?_reverse] at hx
  exact head_dropWhile_not goIsSpace (ldrop s).reverse x hx

theorem trimL_idem (s : List Char) : trimL (trimL s) = trimL s := by
  show rdrop (ldrop (trimL s)) = trimL s
  rw [ldrop_eq_self_of_head (trimL s) (head_trimL_not_ws s)]
  exact rdrop_eq_self_of_last (trimL s) (last_trimL_not_ws s)

theorem trimL_cons_ws_ne {c : Char} (hc : goIsSpace c = true) (h : List Char) :
    trimL (c :: h) ≠ c :: h := by
  intro heq
  have h1 : trimL (c :: h) = rdrop (ldrop h) := by
    show rdrop (ldrop (c :: h)) = _
    unfold ldrop
    rw [List.dropWhile_cons, if_pos hc]
  have h2 : (trimL (c :: h)).length ≤ h.length := by
    rw [h1]
    exact le_trans (rdrop_length_le (ldrop h)) (ldrop_length_le h)
  rw [heq] at h2
  simp at h2

theorem trimL_append_ws_ne {c : Char} (hc : goIsSpace c = true) (q : List Char) :
    trimL (q ++ [c]) ≠ q ++ [c] := by
  intro heq
  have hlen : (trimL (q ++ [c])).length ≤ q.length := by
    show (rdrop (ldrop (q ++ [c]))).length ≤ q.length
    unfold ldrop
    rw [List.dropWhile_append]
    by_cases he : (q.dropWhile goIsSpace).isEmpty
    · rw [if_pos he]
      show (rdrop (List.dropWhile goIsSpace [c])).length ≤ q.length
      rw [show List.dropWhile goIsSpace [c] = [] from by
        rw [List.dropWhile_cons, if_pos hc]; rfl]
      simp [rdrop]
    · rw [if_neg he, rdrop_append_ws hc]
      exact le_trans (rdrop_length_le _) (ldrop_length_le q)
  rw [heq] at hlen
  simp at hlen

/-! ## Line-trimming invariant preservation -/

theorem linesTrimmed_ldrop : ∀ s : List Char, Templates.LinesTrimmed s →
    Templates.LinesTrimmed (ldrop s) := by
  intro s
  induction s with
  | nil => intro h; exact h
  | cons c t ih =>
      intro h
      cases hws : goIsSpace c with
      | false =>
          have : ldrop (c :: t) = c :: t := by
            unfold ldrop
            rw [List.dropWhile_cons, if_neg (by rw [hws]; simp)]
          rw [this]
          exact h
      | true =>
          by_cases hnl : c = '\n'
          · subst hnl
            have ht : Templates.LinesTrimmed t := by
              intro p hp
              exact h p (by rw [splitChar_cons_sep]; exact List.mem_cons_of_mem _ hp)
            have : ldrop ('\n' :: t) = ldrop t := by
              unfold ldrop
              rw [List.dropWhile_cons, if_pos hws]
            rw [this]
            exact ih ht
          · exfalso
            obtain ⟨hd, tl, heq, _⟩ := splitChar_head_prefix_self '\n' t
            have hfirst : (c :: hd) ∈ Templates.splitChar '\n' (c :: t) := by
              rw [splitChar_cons_ne '\n' c t hnl, heq]
              exact List.mem_cons_self _ _
            exact trimL_cons_ws_ne hws hd (h (c :: hd) hfirst)

theorem linesTrimmed_rdrop : ∀ s : List Char, Templates.LinesTrimmed s →
    Templates.LinesTrimmed (rdrop s) := by
  intro s
  induction s using List.reverseRecOn with
  | nil => intro h; exact h
  | append_singleton ys c ih =>
      intro h
      cases hws : goIsSpace c with
      | false =>
          rw [rdrop_append_not_ws hws]
          exact h
      | true =>
          by_cases hnl : c = '\n'
          · subst hnl
            have hys : Templates.LinesTrimmed ys := by
              intro p hp
              exact h p (by
                rw [splitChar_append_last_sep]
                exact List.mem_append_left _ hp)
            rw [rdrop_append_ws hws]
            exact ih hys
          · exfalso
            obtain ⟨qs, q, _, h2⟩ := splitChar_append_last_ne '\n' c hnl ys
            have hmem : (q ++ [c]) ∈ Templates.splitChar '\n' (ys ++ [c]) := by
              rw [h2]
              exact List.mem_append_right _ (List.mem_cons_self _ _)
            exact trimL_append_ws_ne hws q (h _ hmem)

theorem linesTrimmed_trimL (s : List Char) (h : Templates.LinesTrimmed s) :
    Templates.LinesTrimmed (trimL s) :=
  linesTrimmed_rdrop (ldrop s) (linesTrimmed_ldrop s h)

/-! ## Newline collapsing acts on the line structure by dropping lines -/

/-- One `replaceNl3` pass keeps the first line intact and removes a
sublist-worth of the remaining lines (the empty lines inside newline runs);
in particular every line of the output is a line of the input. -/
theorem splitChar_replaceNl3 : ∀ s : List Char,
    ∃ h t1 t0, Templates.splitChar '\n' (Templates.replaceNl3 s) = h :: t1 ∧
      Templates.splitChar '\n' s = h :: t0 ∧ t1.Sublist t0 := by
  intro s
  induction s using Templates.replaceNl3.induct with
  | case1 => exact ⟨[], [], [], rfl, rfl, List.Sublist.refl []⟩
  | case2 c =>
      obtain ⟨hh, tt, heq⟩ := List.exists_cons_of_ne_nil (splitChar_ne_nil '\n' [c])
      exact ⟨hh, tt, tt, heq, heq, List.Sublist.refl tt⟩
  | case3 c d =>
      obtain ⟨hh, tt, heq⟩ := List.exists_cons_of_ne_nil (splitChar_ne_nil '\n' [c, d])
      exact ⟨hh, tt, tt, heq, heq, List.Sublist.refl tt⟩
  | case4 c d e rest htriple ih =>
      obtain ⟨rfl, rfl, rfl⟩ := htriple
      obtain ⟨hd, t1, t0, e1, e0, hsub⟩ := ih
      refine ⟨[], [] :: Templates.splitChar '\n' (Templates.replaceNl3 rest),
              [] :: [] :: Templates.splitChar '\n' rest, ?_, ?_, ?_⟩
      · rw [show Templates.replaceNl3 ('\n' :: '\n' :: '\n' :: rest) =
            '\n' :: '\n' :: Templates.replaceNl3 rest from by
          simp [Templates.replaceNl3]]
        rw [splitChar_cons_sep, splitChar_cons_sep]
      · rw [splitChar_cons_sep, splitChar_cons_sep, splitChar_cons_sep]
      · rw [e1, e0]
        exact List.Sublist.cons₂ [] ((List.Sublist.cons₂ hd hsub).cons [])
  | case5 c d e rest hne ih =>
      obtain ⟨hd, t1, t0, e1, e0, hsub⟩ := ih
      have hstep : Templates.replaceNl3 (c :: d :: e :: rest) =
          c :: Templates.replaceNl3 (d :: e :: rest) := by
        simp [Templates.replaceNl3, hne]
      by_cases hc : c = '\n'
      · subst hc
        refine ⟨[], Templates.splitChar '\n' (Templates.replaceNl3 (d :: e :: rest)),
                Templates.splitChar '\n' (d :: e :: rest), ?_, ?_, ?_⟩
        · rw [hstep, splitChar_cons_sep]
        · rw [splitChar_cons_sep]
        · rw [e1, e0]
          exact List.Sublist.cons₂ hd hsub
      · refine ⟨c :: hd, t1, t0, ?_, ?_, hsub⟩
        · rw [hstep, splitChar_cons_ne '\n' c _ hc, e1]
          rfl
        · rw [splitChar_cons_ne '\n' c _ hc, e0]
          rfl

theorem linesTrimmed_replaceNl3 (s : List Char) (h : Templates.LinesTrimmed s) :
    Templates.LinesTrimmed (Templates.replaceNl3 s) := by
  obtain ⟨hd, t1, t0, e1, e0, hsub⟩ := splitChar_replaceNl3 s
  intro p hp
  rw [e1] at hp
  rcases List.mem_cons.mp hp with h1 | h2
  · exact h p (by rw [e0]; exact h1 ▸ List.mem_cons_self _ _)
  · exact h p (by rw [e0]; exact List.mem_cons_of_mem _ (hsub.subset h2))

/-! ## The no-double-space invariant -/

theorem singleton_prefix_iff {α : Type} (b : α) : ∀ t : List α,
    ([b] <+: t) ↔ t.head? = some b := by
  intro t
  cases t with
  | nil => simp
  | cons d t' =>
      rw [List.cons_prefix_cons]
      simp [eq_comm]

theorem not_pair_infix_iff_chain (a b : Char) : ∀ s : List Char,
    (¬ ([a, b] <:+: s)) ↔ List.Chain' (fun x y => ¬(x = a ∧ y = b)) s := by
  intro s
  induction s with
  | nil =>
      simp [List.infix_nil]
  | cons c t ih =>
      rw [List.infix_cons_iff, List.chain'_cons']
      constructor
      · intro hni
        refine ⟨?_, ih.mp (fun hi => hni (Or.inr hi))⟩
        intro y hy hcy
        refine hni (Or.inl ?_)
        rw [List.cons_prefix_cons]
        refine ⟨hcy.1.symm, ?_⟩
        rw [singleton_prefix_iff]
        rw [Option.mem_def] at hy
        rw [hy, hcy.2]
      · rintro ⟨h1, h2⟩ hor
        rcases hor with hp | hi
        · rw [List.cons_prefix_cons] at hp
          obtain ⟨hac, hbp⟩ := hp
          rw [singleton_prefix_iff] at hbp
          exact h1 b hbp ⟨hac.symm, rfl⟩
        · exact ih.mpr h2 hi

theorem noDoubleSpace_iff_not_contains (s : List Char) :
    Templates.NoDoubleSpace s ↔ goContainsL s [' ', ' '] = false := by
  constructor
  · intro h
    cases hb : goContainsL s [' ', ' '] with
    | false => rfl
    | true =>
        exact absurd ((containsSeq_iff [' ', ' '] s).mp hb)
          ((not_pair_infix_iff_chain ' ' ' ' s).mpr h)
  · intro h
    refine (not_pair_infix_iff_chain ' ' ' ' s).mp ?_
    intro hinf
    rw [← containsSeq_iff [' ', ' '] s] at hinf
    rw [show goContainsL s [' ', ' '] = containsSeq [' ', ' '] s from rfl, hinf] at h
    simp at h

theorem noDoubleSpace_infix_closed {s t : List Char} (h : Templates.NoDoubleSpace s)
    (hinf : t <:+: s) : Templates.NoDoubleSpace t :=
  List.Chain'.infix h hinf

theorem noDoubleSpace_joinChar : ∀ ps : List (List Char),
    (∀ p ∈ ps, Templates.NoDoubleSpace p) →
    Templates.NoDoubleSpace (Templates.joinChar '\n' ps) := by
  intro ps
  induction ps with
  | nil => intro _; exact List.chain'_nil
  | cons p qs ih =>
      intro hall
      cases qs with
      | nil => exact hall p (List.mem_cons_self _ _)
      | cons q qs' =>
          show List.Chain' _ (p ++ '\n' :: Templates.joinChar '\n' (q :: qs'))
          rw [List.chain'_append]
          refine ⟨hall p (List.mem_cons_self _ _), ?_, ?_⟩
          · rw [List.chain'_cons']
            refine ⟨?_, ih (fun r hr => hall r (List.mem_cons_of_mem p hr))⟩
            intro y _ hy
            exact absurd hy.1 (by decide)
          · intro x _ y hy hxy
            simp only [List.head?_cons, Option.mem_def, Option.some.injEq] at hy
            subst hy
            exact absurd hxy.2 (by decide)

theorem noDoubleSpace_replaceNl3 (s : List Char) (h : Templates.NoDoubleSpace s) :
    Templates.NoDoubleSpace (Templates.replaceNl3 s) := by
  have hre : Templates.joinChar '\n'
      (Templates.splitChar '\n' (Templates.replaceNl3 s)) =
      Templates.replaceNl3 s := joinChar_splitChar '\n' _
  rw [← hre]
  apply noDoubleSpace_joinChar
  intro p hp
  obtain ⟨hd, t1, t0, e1, e0, hsub⟩ := splitChar_replaceNl3 s
  rw [e1] at hp
  have hp' : p ∈ Templates.splitChar '\n' s := by
    rw [e0]
    rcases List.mem_cons.mp hp with h1 | h2
    · exact h1 ▸ List.mem_cons_self _ _
    · exact List.mem_cons_of_mem _ (hsub.subset h2)
  exact noDoubleSpace_infix_closed h (infix_of_mem_splitChar '\n' s p hp')

/-- Content is untouched by a bigger text not containing a pattern: an
infix of it does not contain the pattern either. -/
theorem not_contains_infix_closed {big small pat : List Char}
    (h : goContainsL big pat = false) (hinf : small <:+: big) :
    goContainsL small pat = false := by
  cases hb : goContainsL small pat with
  | false => rfl
  | true =>
      have := ((containsSeq_iff pat small).mp hb).trans hinf
      rw [← containsSeq_iff pat big] at this
      rw [show goContainsL big pat = containsSeq pat big from rfl] at h
      rw [this] at h
      exact h

/-! ## Cleanup assembly: invariants of the output and the fixed point -/

theorem linesTrimmed_joinTrim (z : List Char) :
    Templates.LinesTrimmed
      (Templates.joinChar '\n' ((Templates.splitChar '\n' z).map trimL)) := by
  have hne : (Templates.splitChar '\n' z).map trimL ≠ [] := by
    intro hh
    exact splitChar_ne_nil '\n' z (List.map_eq_nil_iff.mp hh)
  have hnl : ∀ p ∈ (Templates.splitChar '\n' z).map trimL, '\n' ∉ p := by
    intro p hp
    obtain ⟨q, hq, rfl⟩ := List.mem_map.mp hp
    intro hmem
    exact splitChar_no_sep '\n' z q hq ((trimL_infix_self q).sublist.subset hmem)
  intro p hp
  rw [splitChar_joinChar '\n' _ hne hnl] at hp
  obtain ⟨q, _, rfl⟩ := List.mem_map.mp hp
  exact trimL_idem q

theorem noDoubleSpace_joinTrim (z : List Char) (h : Templates.NoDoubleSpace z) :
    Templates.NoDoubleSpace
      (Templates.joinChar '\n' ((Templates.splitChar '\n' z).map trimL)) := by
  apply noDoubleSpace_joinChar
  intro p hp
  obtain ⟨q, hq, rfl⟩ := List.mem_map.mp hp
  exact noDoubleSpace_infix_closed h ((trimL_infix_self q).trans (infix_of_mem_splitChar '\n' z q hq))

/-- Every output of one `cleanupWhitespace` pass has no double spaces and
only trimmed lines (it may, however, still contain a triple newline, which
is what breaks idempotence). -/
theorem cleanup_invariants (s : List Char) :
    Templates.NoDoubleSpace (Templates.cleanupWhitespaceL s) ∧
    Templates.LinesTrimmed (Templates.cleanupWhitespaceL s) := by
  have h2 : goContainsL (Templates.collapseSpaces s) [' ', ' '] = false :=
    collapseSpacesFuel_no_pair s.length s le_rfl
  have hA2 : Templates.NoDoubleSpace (Templates.collapseSpaces s) :=
    (noDoubleSpace_iff_not_contains _).mpr h2
  have hA3 : Templates.NoDoubleSpace
      (Templates.collapseNewlines (Templates.collapseSpaces s)) :=
    collapseNewlinesFuel_pres Templates.NoDoubleSpace noDoubleSpace_replaceNl3
      (Templates.collapseSpaces s).length (Templates.collapseSpaces s) hA2
  constructor
  · show Templates.NoDoubleSpace (trimL (Templates.joinChar '\n'
      ((Templates.splitChar '\n'
        (Templates.collapseNewlines (Templates.collapseSpaces s))).map trimL)))
    exact noDoubleSpace_infix_closed (noDoubleSpace_joinTrim _ hA3) (trimL_infix_self _)
  · show Templates.LinesTrimmed (trimL (Templates.joinChar '\n'
      ((Templates.splitChar '\n'
        (Templates.collapseNewlines (Templates.collapseSpaces s))).map trimL)))
    exact linesTrimmed_trimL _ (linesTrimmed_joinTrim _)

/-- On text with no double spaces and trimmed lines, a second cleanup pass
is a fixed point of cleanup (the first pass on such text only collapses
newline runs and re-trims). -/
theorem cleanupL_of_clean (t : List Char) (hA : Templates.NoDoubleSpace t)
    (hB : Templates.LinesTrimmed t) :
    Templates.cleanupWhitespaceL (Templates.cleanupWhitespaceL t) =
      Templates.cleanupWhitespaceL t := by
  have hsp : Templates.collapseSpaces t = t :=
    collapseSpacesFuel_id t.length t ((noDoubleSpace_iff_not_contains t).mp hA)
  have hu3 : goContainsL (Templates.collapseNewlines t) ['\n', '\n', '\n'] = false :=
    collapseNewlinesFuel_no_triple t.length t le_rfl
  have hAu : Templates.NoDoubleSpace (Templates.collapseNewlines t) :=
    collapseNewlinesFuel_pres Templates.NoDoubleSpace noDoubleSpace_replaceNl3
      t.length t hA
  have hBu : Templates.LinesTrimmed (Templates.collapseNewlines t) :=
    collapseNewlinesFuel_pres Templates.LinesTrimmed linesTrimmed_replaceNl3
      t.length t hB
  have hjt : Templates.joinChar '\n'
      ((Templates.splitChar '\n' (Templates.collapseNewlines t)).map trimL) =
      Templates.collapseNewlines t := by
    rw [map_eq_self_of hBu]
    exact joinChar_splitChar '\n' _
  have hct : Templates.cleanupWhitespaceL t = trimL (Templates.collapseNewlines t) := by
    show trimL (Templates.joinChar '\n'
      ((Templates.splitChar '\n'
        (Templates.collapseNewlines (Templates.collapseSpaces t))).map trimL)) = _
    rw [hsp, hjt]
  have hAv : Templates.NoDoubleSpace (trimL (Templates.collapseNewlines t)) :=
    noDoubleSpace_infix_closed hAu (trimL_infix_self _)
  have hNv : goContainsL (trimL (Templates.collapseNewlines t)) ['\n', '\n', '\n'] = false :=
    not_contains_infix_closed hu3 (trimL_infix_self _)
  have hBv : Templates.LinesTrimmed (trimL (Templates.collapseNewlines t)) :=
    linesTrimmed_trimL _ hBu
  have hcv : Templates.cleanupWhitespaceL (trimL (Templates.collapseNewlines t)) =
      trimL (Templates.collapseNewlines t) := by
    have hsp2 : Templates.collapseSpaces (trimL (Templates.collapseNewlines t)) =
        trimL (Templates.collapseNewlines t) :=
      collapseSpacesFuel_id _ _ ((noDoubleSpace_iff_not_contains _).mp hAv)
    have hnl2 : Templates.collapseNewlines (trimL (Templates.collapseNewlines t)) =
        trimL (Templates.collapseNewlines t) :=
      collapseNewlinesFuel_id _ _ hNv
    have hjt2 : Templates.joinChar '\n'
        ((Templates.splitChar '\n' (trimL (Templates.collapseNewlines t))).map trimL) =
        trimL (Templates.collapseNewlines t) := by
      rw [map_eq_self_of hBv]
      exact joinChar_splitChar '\n' _
    show trimL (Templates.joinChar '\n'
      ((Templates.splitChar '\n'
        (Templates.collapseNewlines (Templates.collapseSpaces
          (trimL (Templates.collapseNewlines t))))).map trimL)) = _
    rw [hsp2, hnl2, hjt2]
    exact trimL_idem _
  rw [hct]
  exact hcv

/-! ## Claim C9: whitespace cleanup idempotence -/

/-- C9 counterexample: `cleanupWhitespace` is not idempotent.  On
"a\n \n \nb" the line-trimming step turns the whitespace-only lines into
empty lines, creating a fresh triple newline after the newline-collapsing
step has already run; a second pass collapses it, giving a different
result. -/
theorem C9_cex_not_idempotent :
    Templates.cleanupWhitespace (Templates.cleanupWhitespace "a\n \n \nb") ≠
      Templates.cleanupWhitespace "a\n \n \nb" := by decide

/-- C9 (amended): cleanup applied twice is a fixed point — for every input
string, a third application changes nothing:
`cleanup (cleanup (cleanup x)) = cleanup (cleanup x)` (whereas
`cleanup (cleanup x) = cleanup x` fails, see the counterexample). -/
theorem C9_cleanup_twice_is_fixpoint :
    ∀ s : String,
      Templates.cleanupWhitespace (Templates.cleanupWhitespace
        (Templates.cleanupWhitespace s)) =
      Templates.cleanupWhitespace (Templates.cleanupWhitespace s) := by
  intro s
  have hdef : ∀ x : String, Templates.cleanupWhitespace x =
      ⟨Templates.cleanupWhitespaceL x.toList⟩ := fun _ => rfl
  have hmk : ∀ l : List Char, String.toList ⟨l⟩ = l := fun _ => rfl
  simp only [hdef, hmk]
  exact congrArg String.mk
    (cleanupL_of_clean (Templates.cleanupWhitespaceL s.toList)
      (cleanup_invariants s.toList).1 (cleanup_invariants s.toList).2)

end LinkedInTool
